import Mathlib

/-!
# Task queue `tq` : dispatcher, worker pool and routing table

A shallow embedding of `taskqueue.go`.

* `Task`, `CreateTask`, `Worker`, `RunQueue`, `TaskQueue` follow the Go declarations.
* The goroutines started by `RunQueue` (the dispatcher loop, the workers and the
  detached hand-off goroutines) are embedded as one labelled transition system
  `step?` over `State`: a label names the goroutine that moves, the function gives
  the effect of that move, `none` means the move is blocked.
* `Compute` is the method of the `TaskRequester` interface; it is a parameter of the
  development: applied to a payload and the payload store `W` it tells how the call
  ends (`Outcome`): it returns with a new store, it panics, or it never returns. A call
  on the nil interface value panics.
* The producers are the environment: a producer's send on the ingress channel is the
  move `submit`, its receive on a response channel is the move `deliver`.
* An unrecovered panic in any goroutine ends the process, and so does the report of
  the Go runtime that every goroutine is blocked (the move `deadlock`); a process that
  has ended makes no move.
* The deferred `close` calls of `RunQueue` come after a loop without exit and have no
  counterpart here.
-/

namespace TQ

/-! ## Data model -/

/-- A channel value of element type `Task`: `none` is the nil channel, `some n` is
the channel produced by the `n`-th `make(chan Task)` of the producers. -/
abbrev ChanRef := Option Nat

/-- The direction carried by a Go channel type: `chan T`, `chan<- T`, `<-chan T`. -/
inductive ChanDir where
  | bidir
  | sendOnly
  | recvOnly
  deriving DecidableEq, Repr

/-- May a value of this channel type be used in a send statement. -/
def ChanDir.canSend : ChanDir → Bool
  | .bidir => true
  | .sendOnly => true
  | .recvOnly => false

/-- May a value of this channel type be used in a receive expression. -/
def ChanDir.canRecv : ChanDir → Bool
  | .bidir => true
  | .sendOnly => false
  | .recvOnly => true

/-- The interface `TaskRequester`: `none` is the nil interface value, `some d` a value
whose payload is `d`. Its one method is the parameter `Compute` of the definitions
below. -/
abbrev TaskRequester := Option Nat

/-- How a call of `Compute()` on a payload ends: it returns and leaves a store, it
panics, or it never returns. -/
inductive Outcome (W : Type) where
  | returns (w : W)
  | panics
  | hangs

/-- The struct `Task`. `ResChan` has the static type `chan<- Task`. -/
structure Task where
  TaskID : Int
  ResChan : ChanRef
  Data : TaskRequester
  deriving DecidableEq, Repr

/-- A channel value together with the direction of its static type, as returned to
the caller of `CreateTask`. -/
structure Handle where
  ref : ChanRef
  dir : ChanDir
  deriving DecidableEq, Repr

/-! ## CreateTask -/

/-- The process-wide facilities `CreateTask` draws on: the channel allocator behind
`make` and the global source of `math/rand`, given as the stream of its raw values. -/
structure Alloc where
  nextChan : Nat
  rand : Nat → Nat
  draws : Nat

/-- The call `make(chan Task)`: a channel no earlier `make` returned. -/
def makeChan (a : Alloc) : Nat × Alloc :=
  (a.nextChan, { a with nextChan := a.nextChan + 1 })

/-- The call `rand.Int()`: the next value of the source, a non-negative 63-bit integer. -/
def randInt (a : Alloc) : Int × Alloc :=
  (((a.rand a.draws % 2 ^ 63 : Nat) : Int), { a with draws := a.draws + 1 })

/-- The function `CreateTask(request) (Task, chan Task)`. -/
def CreateTask (request : TaskRequester) (a : Alloc) : (Task × Handle) × Alloc :=
  let rCh := makeChan a
  let id := randInt rCh.2
  (({ TaskID := id.1, ResChan := some rCh.1, Data := request },
    { ref := some rCh.1, dir := ChanDir.bidir }), id.2)

/-- The items returned by successive calls of `CreateTask`, one per request. -/
def createTasks : List TaskRequester → Alloc → List Task
  | [], _ => []
  | r :: rs, a => (CreateTask r a).1.1 :: createTasks rs (CreateTask r a).2

/-! ## Worker -/

/-- What a worker does that other goroutines can observe: it takes an item from `in`,
it calls `Compute()` on a payload, it completes a send on `res`. -/
inductive WorkerEvent where
  | recv (t : Task)
  | compute (d : Nat)
  | send (t : Task)
  deriving DecidableEq, Repr

/-- Where a run of `Worker` stops: back at `range in` with nothing more to take, ended
by a panic, inside a call of `Compute()` that never returns, or inside a send that
`res` never takes. -/
inductive WorkerEnd where
  | waiting
  | panicked
  | hung
  | blocked
  deriving DecidableEq, Repr

/-- The events of a run of `Worker`, the payload store it leaves, where it stops. -/
structure WorkerRun (W : Type) where
  events : List WorkerEvent
  store : W
  stop : WorkerEnd

/-- The function `Worker(id, in, res)`. The channel `in` is given by the items its
`range` yields, the channel `res` by `room`, the number of sends it takes. For each item
`t.Data.Compute()`, a panic on the nil interface value, and then `res <- t`. -/
def Worker {W : Type} (Compute : Nat → W → Outcome W) (id : Int) :
    List Task → Nat → W → WorkerRun W
  | [], _, w => { events := [], store := w, stop := WorkerEnd.waiting }
  | t :: rest, room, w =>
    match t.Data with
    | none => { events := [WorkerEvent.recv t], store := w, stop := WorkerEnd.panicked }
    | some d =>
      match Compute d w with
      | Outcome.panics =>
        { events := [WorkerEvent.recv t, WorkerEvent.compute d], store := w,
          stop := WorkerEnd.panicked }
      | Outcome.hangs =>
        { events := [WorkerEvent.recv t, WorkerEvent.compute d], store := w,
          stop := WorkerEnd.hung }
      | Outcome.returns w' =>
        match room with
        | 0 =>
          { events := [WorkerEvent.recv t, WorkerEvent.compute d], store := w',
            stop := WorkerEnd.blocked }
        | room' + 1 =>
          { events := WorkerEvent.recv t :: WorkerEvent.compute d :: WorkerEvent.send t
              :: (Worker Compute id rest room' w').events
            store := (Worker Compute id rest room' w').store
            stop := (Worker Compute id rest room' w').stop }

/-- The items a trace takes from `in`. -/
def recvItems : List WorkerEvent → List Task
  | [] => []
  | WorkerEvent.recv t :: es => t :: recvItems es
  | _ :: es => recvItems es

/-- The items of the `res <- t` statements of a trace. -/
def sentItems : List WorkerEvent → List Task
  | [] => []
  | WorkerEvent.send t :: es => t :: sentItems es
  | _ :: es => sentItems es

/-- The payloads of the `Compute()` calls of a trace. -/
def computeCalls : List WorkerEvent → List Nat
  | [] => []
  | WorkerEvent.compute d :: es => d :: computeCalls es
  | _ :: es => computeCalls es

/-- The store after `Compute()` was called on the payloads in order, if every call
returns. -/
def storeAfter {W : Type} (Compute : Nat → W → Outcome W) : List Nat → W → Option W
  | [], w => some w
  | d :: ds, w =>
    match Compute d w with
    | Outcome.returns w' => storeAfter Compute ds w'
    | _ => none

/-! ## The map `commPool` -/

/-- The type `map[int]chan<- Task`, as the list of its entries. -/
abbrev CommPool := List (Int × ChanRef)

/-- The entry of key `k`, if the map has one. -/
def mapLookup : CommPool → Int → Option ChanRef
  | [], _ => none
  | e :: m, k => if e.1 = k then some e.2 else mapLookup m k

/-- The index expression `m[k]`: the zero value, the nil channel, when `k` is absent. -/
def mapIndex (m : CommPool) (k : Int) : ChanRef :=
  (mapLookup m k).getD none

/-- The builtin `delete(m, k)`. -/
def mapDelete (m : CommPool) (k : Int) : CommPool :=
  m.filter (fun e => decide (e.1 ≠ k))

/-- The assignment `m[k] = v`. -/
def mapAssign (m : CommPool) (k : Int) (v : ChanRef) : CommPool :=
  (k, v) :: mapDelete m k

/-- The keys of the map. -/
def mapKeys (m : CommPool) : List Int :=
  m.map Prod.fst

/-! ## RunQueue as a transition system -/

/-- Where a worker goroutine stands in its loop body: blocked in `range in`, holding
an item before or inside `Compute()`, or holding it at `res <- t`. -/
inductive WorkerState where
  | idle
  | got (t : Task)
  | done (t : Task)
  deriving DecidableEq, Repr

/-- Why the process ended: the run-time panic of `make` on a size out of range, a panic
in a worker's call of `Compute()`, or the fatal error of the runtime that all goroutines
are asleep. -/
inductive Crash where
  | makechan
  | compute
  | deadlock
  deriving DecidableEq, Repr

/-- Where the dispatcher goroutine stands: at the `select`; inside the send
`commPool[newResult.TaskID] <- newResult` with the channel the index expression gave;
or gone with the process, `held` being the result it had in hand at that moment. -/
inductive DispState where
  | selecting
  | sending (r : Task) (c : ChanRef)
  | dead (why : Crash) (held : List Task)
  deriving DecidableEq, Repr

/-- The state of the system started by `RunQueue`. `received` and `delivered` are
history: the items taken from `req`, and the completed sends on response channels. -/
structure State (W : Type) where
  cap : Nat
  commPool : CommPool
  pending : List Task
  workerTaskQueue : List Task
  workers : List WorkerState
  workerTaskResults : List Task
  disp : DispState
  world : W
  received : List Task
  delivered : List (Nat × Task)
  deriving DecidableEq

/-- The function `RunQueue(workersNum, req)` up to its main loop: the empty map, the
two channels of capacity `workersNum`, one worker per index. `chanLimit` is the largest
capacity with which `make(chan Task, n)` succeeds on the platform; `make` panics on a
negative or larger size, before any worker is started. -/
def RunQueue {W : Type} (chanLimit : Nat) (workersNum : Int) (w : W) : State W :=
  if workersNum < 0 ∨ (chanLimit : Int) < workersNum then
    { cap := 0
      commPool := []
      pending := []
      workerTaskQueue := []
      workers := []
      workerTaskResults := []
      disp := DispState.dead Crash.makechan []
      world := w
      received := []
      delivered := [] }
  else
    { cap := workersNum.toNat
      commPool := []
      pending := []
      workerTaskQueue := []
      workers := List.replicate workersNum.toNat WorkerState.idle
      workerTaskResults := []
      disp := DispState.selecting
      world := w
      received := []
      delivered := [] }

/-- The function `TaskQueue(numWorkers)`: the unbuffered channel `processQueue` is the
`submit` label of the transition system, the started goroutine is `RunQueue`. -/
def TaskQueue {W : Type} (chanLimit : Nat) (numWorkers : Int) (w : W) : State W :=
  RunQueue chanLimit numWorkers w

/-- The moves of the goroutines. -/
inductive Label where
  /-- A producer's send on `req` meets the first case of the `select`. -/
  | submit (t : Task)
  /-- The detached goroutine holding `t` completes `workerTaskQueue <- newTask`. -/
  | handoff (t : Task)
  /-- Worker `i` receives the next item of `in`. -/
  | workerRecv (i : Nat)
  /-- Worker `i` comes to the end of `t.Data.Compute()`: a return or a panic. -/
  | workerCompute (i : Nat)
  /-- Worker `i` completes `res <- t`. -/
  | workerSend (i : Nat)
  /-- The second case of the `select`: the receive from `workerTaskResults` and the
  evaluation of `commPool[newResult.TaskID]`. -/
  | result
  /-- The producer's receive completes the dispatcher's send; `delete` follows. -/
  | deliver
  /-- The runtime finds every goroutine of the process blocked and ends it. -/
  | deadlock
  deriving DecidableEq, Repr

/-- The item a worker holds. -/
def held : WorkerState → List Task
  | WorkerState.idle => []
  | WorkerState.got t => [t]
  | WorkerState.done t => [t]

/-- The items held by the workers. -/
def heldBy : List WorkerState → List Task
  | [] => []
  | w :: ws => held w ++ heldBy ws

/-- The item the dispatcher holds. -/
def dispHeld : DispState → List Task
  | DispState.selecting => []
  | DispState.sending r _ => [r]
  | DispState.dead _ h => h

/-- The process has not ended. -/
def alive {W : Type} (s : State W) : Bool :=
  match s.disp with
  | DispState.dead _ _ => false
  | _ => true

/-- The worker cannot move: nothing to take from `in`, a call of `Compute()` that never
returns, or no room in `res`. -/
def workerAsleep {W : Type} (Compute : Nat → W → Outcome W) (s : State W) :
    WorkerState → Bool
  | WorkerState.idle => s.workerTaskQueue.isEmpty
  | WorkerState.got t =>
    match t.Data with
    | none => false
    | some d =>
      match Compute d s.world with
      | Outcome.hangs => true
      | _ => false
  | WorkerState.done _ => decide (s.cap ≤ s.workerTaskResults.length)

/-- No goroutine started by `RunQueue` can move without a producer: every hand-off
goroutine and every worker is blocked, and the dispatcher is inside its send or at a
`select` with nothing to take from the workers. -/
def stuck {W : Type} (Compute : Nat → W → Outcome W) (s : State W) : Bool :=
  (s.pending.isEmpty || decide (s.cap ≤ s.workerTaskQueue.length))
    && s.workers.all (workerAsleep Compute s)
    && (match s.disp with
        | DispState.selecting => s.workerTaskResults.isEmpty
        | _ => true)

/-- One move; `none` when the goroutine named by the label is blocked or the process
has ended. -/
def step? {W : Type} (Compute : Nat → W → Outcome W) (s : State W) :
    Label → Option (State W)
  | Label.submit t =>
    match s.disp with
    | DispState.selecting =>
      some { s with
        commPool := mapAssign s.commPool t.TaskID t.ResChan
        pending := s.pending ++ [t]
        received := s.received ++ [t] }
    | _ => none
  | Label.handoff t =>
    if alive s = true ∧ t ∈ s.pending ∧ s.workerTaskQueue.length < s.cap then
      some { s with
        pending := s.pending.erase t
        workerTaskQueue := s.workerTaskQueue ++ [t] }
    else none
  | Label.workerRecv i =>
    match alive s, s.workers.get? i, s.workerTaskQueue with
    | true, some WorkerState.idle, t :: q =>
      some { s with
        workers := s.workers.set i (WorkerState.got t)
        workerTaskQueue := q }
    | _, _, _ => none
  | Label.workerCompute i =>
    match alive s, s.workers.get? i with
    | true, some (WorkerState.got t) =>
      match t.Data with
      | none => some { s with disp := DispState.dead Crash.compute (dispHeld s.disp) }
      | some d =>
        match Compute d s.world with
        | Outcome.returns w' =>
          some { s with
            workers := s.workers.set i (WorkerState.done t)
            world := w' }
        | Outcome.panics =>
          some { s with disp := DispState.dead Crash.compute (dispHeld s.disp) }
        | Outcome.hangs => none
    | _, _ => none
  | Label.workerSend i =>
    match alive s, s.workers.get? i with
    | true, some (WorkerState.done t) =>
      if s.workerTaskResults.length < s.cap then
        some { s with
          workers := s.workers.set i WorkerState.idle
          workerTaskResults := s.workerTaskResults ++ [t] }
      else none
    | _, _ => none
  | Label.result =>
    match s.disp, s.workerTaskResults with
    | DispState.selecting, r :: rs =>
      some { s with
        disp := DispState.sending r (mapIndex s.commPool r.TaskID)
        workerTaskResults := rs }
    | _, _ => none
  | Label.deliver =>
    match s.disp with
    | DispState.sending r (some c) =>
      some { s with
        disp := DispState.selecting
        commPool := mapDelete s.commPool r.TaskID
        delivered := s.delivered ++ [(c, r)] }
    | _ => none
  | Label.deadlock =>
    if alive s = true ∧ stuck Compute s = true then
      some { s with disp := DispState.dead Crash.deadlock (dispHeld s.disp) }
    else none

/-- One scheduled move: a blocked goroutine leaves the state as it is. -/
def step {W : Type} (Compute : Nat → W → Outcome W) (s : State W) (l : Label) : State W :=
  (step? Compute s l).getD s

/-- The state after a schedule, a list of moves taken in order. -/
def run {W : Type} (Compute : Nat → W → Outcome W) (s : State W) (ls : List Label) :
    State W :=
  ls.foldl (step Compute) s

/-- The items in flight: registered by the dispatcher and not yet delivered. They sit
in a hand-off goroutine, in one of the two channels, in a worker or in the dispatcher. -/
def inflight {W : Type} (s : State W) : List Task :=
  s.pending ++ s.workerTaskQueue ++ heldBy s.workers ++ s.workerTaskResults ++ dispHeld s.disp

/-- The items of the completed deliveries. -/
def deliveredItems {W : Type} (s : State W) : List Task :=
  s.delivered.map Prod.snd

/-- The channels of the completed deliveries. -/
def deliveredChans {W : Type} (s : State W) : List Nat :=
  s.delivered.map Prod.fst

/-- The values of the map. -/
def poolVals (m : CommPool) : List ChanRef :=
  m.map Prod.snd

/-- The moves of the goroutines of the queue and of the receiving producers: all but
the arrival of a new item and the end of the process by the runtime. -/
def isInternal : Label → Bool
  | Label.submit _ => false
  | Label.deadlock => false
  | _ => true

/-- The moves a goroutine started by `RunQueue` makes without a producer. -/
def isSelfMove : Label → Bool
  | Label.handoff _ => true
  | Label.workerRecv _ => true
  | Label.workerCompute _ => true
  | Label.workerSend _ => true
  | Label.result => true
  | _ => false

/-- A schedule of moves, each one enabled when its turn comes. -/
def enabledRun {W : Type} (Compute : Nat → W → Outcome W) : State W → List Label → Bool
  | _, [] => true
  | s, l :: ls =>
    match step? Compute s l with
    | some s' => enabledRun Compute s' ls
    | none => false

/-- The move does not register an item whose TaskID an item in flight already has. -/
def freshSubmit {W : Type} (s : State W) : Label → Bool
  | Label.submit t =>
    !decide (s.disp = DispState.selecting)
      || decide (t.TaskID ∉ (inflight s).map Task.TaskID)
  | _ => true

/-- A schedule along which the items in flight at any one time have pairwise-distinct
TaskIDs: every registration meets `freshSubmit`. -/
def distinctInFlight {W : Type} (Compute : Nat → W → Outcome W) :
    State W → List Label → Bool
  | _, [] => true
  | s, l :: ls => freshSubmit s l && distinctInFlight Compute (step Compute s l) ls

/-- The moves an item in the worker's hands still has to go through. -/
def workerWeight : WorkerState → Nat
  | WorkerState.idle => 0
  | WorkerState.got _ => 4
  | WorkerState.done _ => 3

/-- The sum of `workerWeight` over the pool. -/
def workersWeight : List WorkerState → Nat
  | [] => 0
  | w :: ws => workerWeight w + workersWeight ws

/-- The move an item in the dispatcher's hands still has to go through. -/
def dispWeight : DispState → Nat
  | DispState.selecting => 0
  | DispState.sending _ _ => 1
  | DispState.dead _ h => h.length

/-- The number of internal moves the items in flight still have to go through: six
for an item in a hand-off goroutine, down to one for an item being delivered. -/
def potential {W : Type} (s : State W) : Nat :=
  6 * s.pending.length + 5 * s.workerTaskQueue.length + workersWeight s.workers
    + 2 * s.workerTaskResults.length + dispWeight s.disp

/-- What one enabled move does to the parts of the state the invariants speak of. -/
inductive Effect {W : Type} (s s' : State W) : Label → Prop where
  | submit (t : Task) :
      s.disp = DispState.selecting → s'.disp = DispState.selecting →
      s'.commPool = mapAssign s.commPool t.TaskID t.ResChan →
      s'.received = s.received ++ [t] → s'.delivered = s.delivered →
      (inflight s').Perm (t :: inflight s) → potential s' = potential s + 6 →
      Effect s s' (Label.submit t)
  | pool (l : Label) :
      isInternal l = true →
      alive s = true → s'.disp = s.disp → s'.commPool = s.commPool →
      s'.received = s.received → s'.delivered = s.delivered →
      (inflight s').Perm (inflight s) → potential s' + 1 = potential s →
      Effect s s' l
  | result (r : Task) :
      s.disp = DispState.selecting →
      s'.disp = DispState.sending r (mapIndex s.commPool r.TaskID) →
      s'.commPool = s.commPool →
      s'.received = s.received → s'.delivered = s.delivered →
      (inflight s').Perm (inflight s) → potential s' + 1 = potential s →
      Effect s s' Label.result
  | deliver (r : Task) (c : Nat) :
      s.disp = DispState.sending r (some c) → s'.disp = DispState.selecting →
      s'.commPool = mapDelete s.commPool r.TaskID →
      s'.received = s.received → s'.delivered = s.delivered ++ [(c, r)] →
      (inflight s).Perm (r :: inflight s') → potential s' + 1 = potential s →
      Effect s s' Label.deliver
  | crash (l : Label) (why : Crash) :
      (l = Label.deadlock ∨ ∃ i, l = Label.workerCompute i) →
      alive s = true → s'.disp = DispState.dead why (dispHeld s.disp) →
      s'.commPool = s.commPool →
      s'.received = s.received → s'.delivered = s.delivered →
      inflight s' = inflight s →
      Effect s s' l

/-- The invariant of the dispatcher that needs no assumption on the items. -/
structure Inv {W : Type} (s : State W) : Prop where
  history : (inflight s ++ deliveredItems s).Perm s.received
  keysNodup : (mapKeys s.commPool).Nodup
  poolFrom : ∀ e ∈ s.commPool, ∃ t ∈ s.received, t.TaskID = e.1 ∧ t.ResChan = e.2
  sendingIdx : ∀ r c, s.disp = DispState.sending r c → c = mapIndex s.commPool r.TaskID
  deliveredFrom : ∀ e ∈ s.delivered, ∃ t ∈ s.received, t.ResChan = some e.1
  workersLen : s.workers.length = s.cap
  keysIn : ∀ k ∈ mapKeys s.commPool, ∃ t ∈ inflight s, t.TaskID = k

/-- The routing invariant, which holds as long as the items in flight have
pairwise-distinct TaskIDs. -/
structure Routed {W : Type} (s : State W) : Prop where
  idsNodup : ((inflight s).map Task.TaskID).Nodup
  lookupOk : ∀ t ∈ inflight s, mapLookup s.commPool t.TaskID = some t.ResChan
  deliveredOk : ∀ e ∈ s.delivered, e.2.ResChan = some e.1

/-! ## Concrete data for the examples -/

/-- A payload store for the examples: `Compute` returns and adds the payload to a
running sum. -/
def demoCompute : Nat → Nat → Outcome Nat :=
  fun d w => Outcome.returns (w + d)

/-- A capacity bound for the examples. -/
def demoLimit : Nat :=
  2 ^ 43

/-- An allocator whose random source returns the position of the draw plus seven:
successive items get distinct TaskIDs. -/
def demoAlloc : Alloc :=
  { nextChan := 0, rand := fun n => n + 7, draws := 0 }

/-- An allocator whose random source repeats itself: every item gets TaskID 7. -/
def collidingAlloc : Alloc :=
  { nextChan := 0, rand := fun _ => 7, draws := 0 }

/-- The first item of `createTasks [some 10, some 20] demoAlloc`, and of the colliding
one. -/
def itemA : Task :=
  { TaskID := 7, ResChan := some 0, Data := some 10 }

/-- The second item of `createTasks [some 10, some 20] demoAlloc`. -/
def itemB : Task :=
  { TaskID := 8, ResChan := some 1, Data := some 20 }

/-- The second item of `createTasks [some 10, some 20] collidingAlloc`: the TaskID of
`itemA`, another response channel, another payload. -/
def itemB7 : Task :=
  { TaskID := 7, ResChan := some 1, Data := some 20 }

/-- An item built by hand around the response channel of `itemA`. -/
def itemC : Task :=
  { TaskID := 9, ResChan := some 0, Data := some 30 }

/-- The item of `createTasks [none] demoAlloc`: the request is the nil interface value. -/
def nilItem : Task :=
  { TaskID := 7, ResChan := some 0, Data := none }

/-- An item built by hand with the nil channel as response channel. -/
def noChanItem : Task :=
  { TaskID := 5, ResChan := none, Data := some 10 }

/-- A schedule that takes `first` through the pool of one worker up to its delivery
while `second` waits in its hand-off goroutine. -/
def serveFirst (first second : Task) : List Label :=
  [Label.submit first, Label.submit second, Label.handoff first, Label.workerRecv 0,
   Label.workerCompute 0, Label.workerSend 0, Label.result, Label.deliver]

/-- The moves that take `t` from its hand-off goroutine into the results channel. -/
def serveUpToResults (t : Task) : List Label :=
  [Label.handoff t, Label.workerRecv 0, Label.workerCompute 0, Label.workerSend 0]

/-- The moves that take `t` from its hand-off goroutine to the dispatcher's lookup. -/
def serveUpToLookup (t : Task) : List Label :=
  serveUpToResults t ++ [Label.result]

/-- The moves that submit `itemC` and serve it up to its delivery. -/
def hijackSchedule : List Label :=
  Label.submit itemC :: serveUpToLookup itemC ++ [Label.deliver]

/-- A run that submits `itemA` and `itemB` and serves `itemB` and then `itemA`. -/
def serveBoth : List Label :=
  [Label.submit itemA, Label.submit itemB] ++ serveUpToLookup itemB ++ [Label.deliver]
    ++ serveUpToLookup itemA ++ [Label.deliver]

/-- The state after `serveBoth`. -/
def allServedState : State Nat :=
  run demoCompute (TaskQueue demoLimit 1 0) serveBoth

/-- The state in which the dispatcher is inside the send of `itemA` on its response
channel. -/
def waitingState : State Nat :=
  run demoCompute (TaskQueue demoLimit 1 0) (Label.submit itemA :: serveUpToLookup itemA)

/-- The state in which the dispatcher is inside the send of `noChanItem`. -/
def noChanState : State Nat :=
  run demoCompute (TaskQueue demoLimit 1 0)
    (Label.submit noChanItem :: serveUpToLookup noChanItem)

/-- The state after `itemA` was served while `itemB` waits. -/
def servedState : State Nat :=
  run demoCompute (RunQueue demoLimit 1 0) (serveFirst itemA itemB)

/-- The state `servedState` once the result of `itemB` is in the results channel. -/
def nextResultState : State Nat :=
  run demoCompute servedState (serveUpToResults itemB)

/-- The state after `itemA` was served while `itemB7`, of the same TaskID, waits. -/
def collidedState : State Nat :=
  run demoCompute (RunQueue demoLimit 1 0) (serveFirst itemA itemB7)

/-- The state `collidedState` once the result of `itemB7` is in the results channel. -/
def missState : State Nat :=
  run demoCompute collidedState (serveUpToResults itemB7)

/-- The state `collidedState` once the result of `itemB7` reached the dispatcher. -/
def blockedState : State Nat :=
  run demoCompute collidedState (serveUpToLookup itemB7)

/-! ## Lemmas on the map -/

theorem mapDelete_cons (e : Int × ChanRef) (m : CommPool) (k : Int) :
    mapDelete (e :: m) k = if e.1 = k then mapDelete m k else e :: mapDelete m k := by
  by_cases h : e.1 = k <;> simp [mapDelete, List.filter_cons, h]

theorem mapLookup_cons (e : Int × ChanRef) (m : CommPool) (k : Int) :
    mapLookup (e :: m) k = if e.1 = k then some e.2 else mapLookup m k := rfl

theorem mapLookup_assign_same (m : CommPool) (k : Int) (v : ChanRef) :
    mapLookup (mapAssign m k v) k = some v := by
  simp [mapAssign, mapLookup]

theorem mapLookup_delete_other (m : CommPool) (k k' : Int) (h : k' ≠ k) :
    mapLookup (mapDelete m k) k' = mapLookup m k' := by
  induction m with
  | nil => rfl
  | cons e m ih =>
    rw [mapDelete_cons, mapLookup_cons]
    by_cases he : e.1 = k
    · have h3 : ¬ e.1 = k' := fun h' => h (h'.symm.trans he)
      rw [if_pos he, if_neg h3, ih]
    · rw [if_neg he, mapLookup_cons, ih]

theorem mapLookup_delete_same (m : CommPool) (k : Int) :
    mapLookup (mapDelete m k) k = none := by
  induction m with
  | nil => rfl
  | cons e m ih =>
    rw [mapDelete_cons]
    by_cases he : e.1 = k
    · rw [if_pos he, ih]
    · rw [if_neg he, mapLookup_cons, if_neg he, ih]

theorem mapLookup_assign_other (m : CommPool) (k k' : Int) (v : ChanRef) (h : k' ≠ k) :
    mapLookup (mapAssign m k v) k' = mapLookup m k' := by
  have h2 : ¬ k = k' := fun e => h e.symm
  rw [mapAssign, mapLookup_cons, if_neg h2]
  exact mapLookup_delete_other m k k' h

theorem mem_mapKeys_iff (m : CommPool) (k : Int) :
    k ∈ mapKeys m ↔ ∃ c, mapLookup m k = some c := by
  induction m with
  | nil => simp [mapKeys, mapLookup]
  | cons e m ih =>
    rw [mapLookup_cons]
    show k ∈ e.1 :: mapKeys m ↔ _
    by_cases he : e.1 = k
    · rw [if_pos he, he]; simp
    · rw [if_neg he, List.mem_cons, ← ih]
      constructor
      · rintro (h | h)
        · exact absurd h.symm he
        · exact h
      · exact Or.inr

theorem mapKeys_delete (m : CommPool) (k : Int) :
    mapKeys (mapDelete m k) = (mapKeys m).filter (fun x => decide (x ≠ k)) := by
  induction m with
  | nil => rfl
  | cons e m ih =>
    rw [mapDelete_cons]
    show _ = List.filter _ (e.1 :: mapKeys m)
    by_cases he : e.1 = k
    · rw [if_pos he, ih, List.filter_cons_of_neg (by simpa using he)]
    · rw [if_neg he, List.filter_cons_of_pos (by simpa using he)]
      show e.1 :: mapKeys (mapDelete m k) = _
      rw [ih]

theorem mapKeys_assign (m : CommPool) (k : Int) (v : ChanRef) :
    mapKeys (mapAssign m k v) = k :: (mapKeys m).filter (fun x => decide (x ≠ k)) := by
  show k :: mapKeys (mapDelete m k) = _
  rw [mapKeys_delete]

theorem nodup_mapKeys_delete (m : CommPool) (k : Int) (h : (mapKeys m).Nodup) :
    (mapKeys (mapDelete m k)).Nodup := by
  rw [mapKeys_delete]; exact h.filter _

theorem nodup_mapKeys_assign (m : CommPool) (k : Int) (v : ChanRef) (h : (mapKeys m).Nodup) :
    (mapKeys (mapAssign m k v)).Nodup := by
  rw [mapKeys_assign]
  refine List.nodup_cons.2 ⟨?_, h.filter _⟩
  simp [List.mem_filter]

theorem mem_mapKeys_delete (m : CommPool) (k x : Int) :
    x ∈ mapKeys (mapDelete m k) ↔ x ∈ mapKeys m ∧ x ≠ k := by
  rw [mapKeys_delete]; simp [List.mem_filter]

theorem mem_mapKeys_assign (m : CommPool) (k x : Int) (v : ChanRef) :
    x ∈ mapKeys (mapAssign m k v) ↔ x = k ∨ x ∈ mapKeys m := by
  rw [mapKeys_assign]; simp [List.mem_filter]
  by_cases h : x = k <;> simp [h]

theorem length_mapAssign_fresh (m : CommPool) (k : Int) (v : ChanRef) (h : k ∉ mapKeys m) :
    (mapAssign m k v).length = m.length + 1 := by
  have : mapDelete m k = m := by
    unfold mapDelete
    rw [List.filter_eq_self]
    intro e he
    have : e.1 ∈ mapKeys m := List.mem_map_of_mem _ he
    simp
    rintro rfl
    exact h this
  simp [mapAssign, this]

theorem length_mapDelete_mem (m : CommPool) (k : Int) (hn : (mapKeys m).Nodup)
    (h : k ∈ mapKeys m) : (mapDelete m k).length + 1 = m.length := by
  induction m with
  | nil => simp [mapKeys] at h
  | cons e m ih =>
    rw [mapDelete_cons]
    have hn' : e.1 ∉ mapKeys m ∧ (mapKeys m).Nodup := List.nodup_cons.1 hn
    by_cases he : e.1 = k
    · rw [if_pos he]
      have hk : k ∉ mapKeys m := he ▸ hn'.1
      have : mapDelete m k = m := by
        unfold mapDelete
        rw [List.filter_eq_self]
        intro e' he'
        have : e'.1 ∈ mapKeys m := List.mem_map_of_mem _ he'
        simp
        rintro rfl
        exact hk this
      rw [this]; rfl
    · rw [if_neg he]
      have hk : k ∈ mapKeys m := by
        rcases List.mem_cons.1 h with h1 | h1
        · exact absurd h1.symm he
        · exact h1
      have := ih hn'.2 hk
      simp only [List.length_cons]
      omega

/-! ## The effect of one move -/

theorem count_heldBy_set (ws : List WorkerState) (i : Nat) (old new : WorkerState)
    (h : ws.get? i = some old) (x : Task) :
    List.count x (heldBy (ws.set i new)) + List.count x (held old)
      = List.count x (heldBy ws) + List.count x (held new) := by
  induction ws generalizing i with
  | nil => simp at h
  | cons w ws ih =>
    cases i with
    | zero =>
      simp at h
      subst h
      simp [heldBy, List.count_append]
      omega
    | succ i =>
      simp at h
      have := ih i (by simpa using h)
      simp [heldBy, List.count_append]
      omega

theorem workersWeight_set (ws : List WorkerState) (i : Nat) (old new : WorkerState)
    (h : ws.get? i = some old) :
    workersWeight (ws.set i new) + workerWeight old = workersWeight ws + workerWeight new := by
  induction ws generalizing i with
  | nil => simp at h
  | cons w ws ih =>
    cases i with
    | zero =>
      simp at h
      subst h
      simp [workersWeight]
      omega
    | succ i =>
      simp at h
      have := ih i (by simpa using h)
      simp [workersWeight]
      omega

theorem crash_effect {W : Type} (s : State W) (l : Label) (why : Crash)
    (hl : l = Label.deadlock ∨ ∃ i, l = Label.workerCompute i) (ha : alive s = true) :
    Effect s { s with disp := DispState.dead why (dispHeld s.disp) } l :=
  Effect.crash l why hl ha rfl rfl rfl rfl (by simp [inflight, dispHeld])

theorem step?_effect {W : Type} (Compute : Nat → W → Outcome W) (s s' : State W) (l : Label)
    (h : step? Compute s l = some s') :
    s'.cap = s.cap ∧ s'.workers.length = s.workers.length ∧ Effect s s' l := by
  cases l with
  | submit t =>
    simp only [step?] at h
    split at h
    · rename_i hd
      injection h with h
      subst h
      refine ⟨rfl, rfl, Effect.submit t hd hd rfl rfl rfl ?_ ?_⟩
      · refine List.perm_iff_count.2 (fun x => ?_)
        simp [inflight, List.count_append, List.count_cons]
        omega
      · simp [potential]
        omega
    · exact absurd h (by simp)
  | handoff t =>
    simp only [step?] at h
    split at h
    · rename_i hc
      injection h with h
      subst h
      refine ⟨rfl, rfl, Effect.pool _ rfl hc.1 rfl rfl rfl rfl ?_ ?_⟩
      · refine List.perm_iff_count.2 (fun x => ?_)
        have hp := (List.perm_cons_erase hc.2.1).count_eq x
        simp [inflight, List.count_append, List.count_cons] at hp ⊢
        omega
      · have hp := (List.perm_cons_erase hc.2.1).length_eq
        simp [potential] at hp ⊢
        omega
    · exact absurd h (by simp)
  | workerRecv i =>
    simp only [step?] at h
    split at h
    · rename_i t q ha hw hq
      injection h with h
      subst h
      refine ⟨rfl, by simp, Effect.pool _ rfl ha rfl rfl rfl rfl ?_ ?_⟩
      · refine List.perm_iff_count.2 (fun x => ?_)
        have hp := count_heldBy_set s.workers i _ (WorkerState.got t) hw x
        simp [inflight, List.count_append, List.count_cons, hq, held] at hp ⊢
        omega
      · have hp := workersWeight_set s.workers i _ (WorkerState.got t) hw
        simp [potential, hq, workerWeight] at hp ⊢
        omega
    · exact absurd h (by simp)
  | workerCompute i =>
    simp only [step?] at h
    split at h
    · rename_i t ha hw
      split at h
      · injection h with h
        subst h
        exact ⟨rfl, rfl, crash_effect s _ Crash.compute (Or.inr ⟨i, rfl⟩) ha⟩
      · split at h
        · injection h with h
          subst h
          refine ⟨rfl, by simp, Effect.pool _ rfl ha rfl rfl rfl rfl ?_ ?_⟩
          · refine List.perm_iff_count.2 (fun x => ?_)
            have hp := count_heldBy_set s.workers i _ (WorkerState.done t) hw x
            simp [inflight, List.count_append, List.count_cons, held] at hp ⊢
            omega
          · have hp := workersWeight_set s.workers i _ (WorkerState.done t) hw
            simp [potential, workerWeight] at hp ⊢
            omega
        · injection h with h
          subst h
          exact ⟨rfl, rfl, crash_effect s _ Crash.compute (Or.inr ⟨i, rfl⟩) ha⟩
        · exact absurd h (by simp)
    · exact absurd h (by simp)
  | workerSend i =>
    simp only [step?] at h
    split at h
    · rename_i t ha hw
      split at h
      · injection h with h
        subst h
        refine ⟨rfl, by simp, Effect.pool _ rfl ha rfl rfl rfl rfl ?_ ?_⟩
        · refine List.perm_iff_count.2 (fun x => ?_)
          have hp := count_heldBy_set s.workers i _ WorkerState.idle hw x
          simp [inflight, List.count_append, List.count_cons, held] at hp ⊢
          omega
        · have hp := workersWeight_set s.workers i _ WorkerState.idle hw
          simp [potential, workerWeight] at hp ⊢
          omega
      · exact absurd h (by simp)
    · exact absurd h (by simp)
  | result =>
    simp only [step?] at h
    split at h
    · rename_i r rs hd hq
      injection h with h
      subst h
      refine ⟨rfl, rfl, Effect.result r hd rfl rfl rfl rfl ?_ ?_⟩
      · refine List.perm_iff_count.2 (fun x => ?_)
        simp [inflight, List.count_append, List.count_cons, hq, hd, dispHeld]
      · simp [potential, hq, hd, dispWeight]
        omega
    · exact absurd h (by simp)
  | deliver =>
    simp only [step?] at h
    split at h
    · rename_i r c hd
      injection h with h
      subst h
      refine ⟨rfl, rfl, Effect.deliver r c hd rfl rfl rfl rfl ?_ ?_⟩
      · refine List.perm_iff_count.2 (fun x => ?_)
        simp [inflight, List.count_append, List.count_cons, hd, dispHeld]
        omega
      · simp [potential, hd, dispWeight]
    · exact absurd h (by simp)
  | deadlock =>
    simp only [step?] at h
    split at h
    · rename_i hc
      injection h with h
      subst h
      exact ⟨rfl, rfl, crash_effect s _ Crash.deadlock (Or.inl rfl) hc.1⟩
    · exact absurd h (by simp)

/-! ## The invariant of the dispatcher -/

theorem step_cases {W : Type} (Compute : Nat → W → Outcome W) (s : State W) (l : Label) :
    (step? Compute s l = none ∧ step Compute s l = s)
      ∨ ∃ s', step? Compute s l = some s' ∧ step Compute s l = s' := by
  unfold step
  cases h : step? Compute s l with
  | none => exact Or.inl ⟨rfl, rfl⟩
  | some s' => exact Or.inr ⟨s', rfl, rfl⟩

theorem run_cons {W : Type} (Compute : Nat → W → Outcome W) (s : State W) (l : Label)
    (ls : List Label) : run Compute s (l :: ls) = run Compute (step Compute s l) ls := rfl

theorem run_append {W : Type} (Compute : Nat → W → Outcome W) (s : State W)
    (ls js : List Label) :
    run Compute s (ls ++ js) = run Compute (run Compute s ls) js := by
  simp [run, List.foldl_append]

theorem mem_of_mapLookup (m : CommPool) (k : Int) (c : ChanRef)
    (h : mapLookup m k = some c) : (k, c) ∈ m := by
  induction m with
  | nil => simp [mapLookup] at h
  | cons e m ih =>
    rw [mapLookup_cons] at h
    by_cases he : e.1 = k
    · rw [if_pos he] at h
      injection h with h
      have : e = (k, c) := Prod.ext he h
      rw [this]; exact List.mem_cons_self _ _
    · rw [if_neg he] at h
      exact List.mem_cons_of_mem _ (ih h)

theorem mem_mapDelete (m : CommPool) (k : Int) (e : Int × ChanRef) :
    e ∈ mapDelete m k ↔ e ∈ m ∧ e.1 ≠ k := by
  simp [mapDelete, List.mem_filter]

theorem mapLookup_of_index (m : CommPool) (k : Int) (c : Nat)
    (h : some c = mapIndex m k) : mapLookup m k = some (some c) := by
  unfold mapIndex at h
  cases h' : mapLookup m k with
  | none => rw [h'] at h; simp at h
  | some v => rw [h'] at h; simp at h; rw [h]

theorem heldBy_replicate_idle (n : Nat) :
    heldBy (List.replicate n WorkerState.idle) = [] := by
  induction n with
  | zero => rfl
  | succ n ih => simp [List.replicate_succ, heldBy, held, ih]

theorem inv_init {W : Type} (chanLimit : Nat) (workersNum : Int) (w : W) :
    Inv (RunQueue chanLimit workersNum w) := by
  unfold RunQueue
  split
  · refine ⟨?_, ?_, ?_, ?_, ?_, ?_, ?_⟩ <;>
      simp [inflight, deliveredItems, heldBy, dispHeld, mapKeys]
  · refine ⟨?_, ?_, ?_, ?_, ?_, ?_, ?_⟩ <;>
      simp [inflight, deliveredItems, heldBy_replicate_idle, dispHeld, mapKeys]

theorem inv_effect {W : Type} (s s' : State W) (l : Label) (hi : Inv s)
    (hc : s'.cap = s.cap) (hw : s'.workers.length = s.workers.length)
    (he : Effect s s' l) : Inv s' := by
  cases he with
  | submit t hd hd' hp hr hdl hperm _ =>
    refine ⟨?_, ?_, ?_, ?_, ?_, ?_, ?_⟩
    · rw [hr]
      have h1 : (inflight s' ++ deliveredItems s').Perm (t :: (inflight s ++ deliveredItems s)) := by
        have : deliveredItems s' = deliveredItems s := by simp [deliveredItems, hdl]
        rw [this]
        exact hperm.append_right _
      refine h1.trans ?_
      refine ((List.Perm.cons t hi.history)).trans ?_
      exact (List.perm_append_singleton t s.received).symm
    · rw [hp]; exact nodup_mapKeys_assign _ _ _ hi.keysNodup
    · intro e hmem
      rw [hp, mapAssign, List.mem_cons] at hmem
      rw [hr]
      rcases hmem with h | h
      · exact ⟨t, by simp, by simp [h], by simp [h]⟩
      · obtain ⟨u, hu, h1, h2⟩ := hi.poolFrom e ((mem_mapDelete _ _ _).1 h).1
        exact ⟨u, List.mem_append_left _ hu, h1, h2⟩
    · intro r c h
      rw [hd'] at h
      exact absurd h (by simp)
    · intro e hmem
      rw [hdl] at hmem
      obtain ⟨u, hu, h1⟩ := hi.deliveredFrom e hmem
      exact ⟨u, by rw [hr]; exact List.mem_append_left _ hu, h1⟩
    · rw [hw, hc]; exact hi.workersLen
    · intro k hk
      rw [hp, mem_mapKeys_assign] at hk
      rcases hk with h | h
      · exact ⟨t, hperm.symm.subset (List.mem_cons_self _ _), h.symm⟩
      · obtain ⟨u, hu, h1⟩ := hi.keysIn k h
        exact ⟨u, hperm.symm.subset (List.mem_cons_of_mem _ hu), h1⟩
  | pool l _ _ hd hp hr hdl hperm _ =>
    refine ⟨?_, ?_, ?_, ?_, ?_, ?_, ?_⟩
    · rw [hr]
      have : deliveredItems s' = deliveredItems s := by simp [deliveredItems, hdl]
      rw [this]
      exact (hperm.append_right _).trans hi.history
    · rw [hp]; exact hi.keysNodup
    · rw [hp, hr]; exact hi.poolFrom
    · rw [hp, hd]; exact hi.sendingIdx
    · rw [hdl, hr]; exact hi.deliveredFrom
    · rw [hw, hc]; exact hi.workersLen
    · intro k hk
      rw [hp] at hk
      obtain ⟨u, hu, h1⟩ := hi.keysIn k hk
      exact ⟨u, hperm.symm.subset hu, h1⟩
  | result r hd hd' hp hr hdl hperm _ =>
    refine ⟨?_, ?_, ?_, ?_, ?_, ?_, ?_⟩
    · rw [hr]
      have : deliveredItems s' = deliveredItems s := by simp [deliveredItems, hdl]
      rw [this]
      exact (hperm.append_right _).trans hi.history
    · rw [hp]; exact hi.keysNodup
    · rw [hp, hr]; exact hi.poolFrom
    · intro r' c h
      rw [hd'] at h
      injection h with h1 h2
      rw [hp, ← h1, ← h2]
    · rw [hdl, hr]; exact hi.deliveredFrom
    · rw [hw, hc]; exact hi.workersLen
    · intro k hk
      rw [hp] at hk
      obtain ⟨u, hu, h1⟩ := hi.keysIn k hk
      exact ⟨u, hperm.symm.subset hu, h1⟩
  | deliver r c hd hd' hp hr hdl hperm _ =>
    have hidx := hi.sendingIdx r (some c) hd
    have hlk : mapLookup s.commPool r.TaskID = some (some c) := by
      unfold mapIndex at hidx
      cases h : mapLookup s.commPool r.TaskID with
      | none => rw [h] at hidx; simp at hidx
      | some v => rw [h] at hidx; simp at hidx; rw [hidx]
    refine ⟨?_, ?_, ?_, ?_, ?_, ?_, ?_⟩
    · rw [hr]
      refine List.Perm.trans ?_ hi.history
      have h1 : deliveredItems s' = deliveredItems s ++ [r] := by simp [deliveredItems, hdl]
      rw [h1]
      refine List.perm_iff_count.2 (fun x => ?_)
      have h2 := hperm.count_eq x
      simp [List.count_append, List.count_cons] at h2 ⊢
      omega
    · rw [hp]; exact nodup_mapKeys_delete _ _ hi.keysNodup
    · intro e hmem
      rw [hp] at hmem
      rw [hr]
      exact hi.poolFrom e ((mem_mapDelete _ _ _).1 hmem).1
    · intro r' c' h
      rw [hd'] at h
      exact absurd h (by simp)
    · intro e hmem
      rw [hdl, List.mem_append] at hmem
      rw [hr]
      rcases hmem with h | h
      · exact hi.deliveredFrom e h
      · simp at h
        obtain ⟨u, hu, _, h2⟩ := hi.poolFrom _ (mem_of_mapLookup _ _ _ hlk)
        exact ⟨u, hu, by rw [h]; exact h2⟩
    · rw [hw, hc]; exact hi.workersLen
    · intro k hk
      rw [hp, mem_mapKeys_delete] at hk
      obtain ⟨u, hu, h1⟩ := hi.keysIn k hk.1
      rcases List.mem_cons.1 (hperm.subset hu) with h | h
      · exact absurd (h ▸ h1).symm (fun e => hk.2 e)
      · exact ⟨u, h, h1⟩
  | crash l why _ _ hd hp hr hdl hin =>
    refine ⟨?_, ?_, ?_, ?_, ?_, ?_, ?_⟩
    · rw [hr, hin]
      have : deliveredItems s' = deliveredItems s := by simp [deliveredItems, hdl]
      rw [this]
      exact hi.history
    · rw [hp]; exact hi.keysNodup
    · rw [hp, hr]; exact hi.poolFrom
    · intro r c h
      rw [hd] at h
      exact absurd h (by simp)
    · rw [hdl, hr]; exact hi.deliveredFrom
    · rw [hw, hc]; exact hi.workersLen
    · rw [hp, hin]; exact hi.keysIn

theorem inv_step {W : Type} (Compute : Nat → W → Outcome W) (s : State W) (l : Label)
    (hi : Inv s) : Inv (step Compute s l) := by
  rcases step_cases Compute s l with ⟨_, h⟩ | ⟨s', h1, h2⟩
  · rw [h]; exact hi
  · rw [h2]
    obtain ⟨hc, hw, he⟩ := step?_effect Compute s s' l h1
    exact inv_effect s s' l hi hc hw he

theorem inv_run {W : Type} (Compute : Nat → W → Outcome W) (ls : List Label) (s : State W)
    (hi : Inv s) : Inv (run Compute s ls) := by
  induction ls generalizing s with
  | nil => exact hi
  | cons l ls ih => exact ih _ (inv_step Compute s l hi)

/-! ## The routing invariant -/

theorem routed_init {W : Type} (chanLimit : Nat) (workersNum : Int) (w : W) :
    Routed (RunQueue chanLimit workersNum w) := by
  unfold RunQueue
  split
  · refine ⟨?_, ?_, ?_⟩ <;> simp [inflight, heldBy, dispHeld]
  · refine ⟨?_, ?_, ?_⟩ <;> simp [inflight, heldBy_replicate_idle, dispHeld]

theorem routed_effect {W : Type} (s s' : State W) (l : Label) (hi : Inv s) (hr : Routed s)
    (hf : freshSubmit s l = true) (he : Effect s s' l) : Routed s' := by
  cases he with
  | submit t hd hd' hp hrc hdl hperm _ =>
    have hfresh : t.TaskID ∉ (inflight s).map Task.TaskID := by
      simpa [freshSubmit, hd] using hf
    refine ⟨?_, ?_, ?_⟩
    · refine ((hperm.map Task.TaskID).nodup_iff).2 ?_
      rw [List.map_cons]
      exact List.nodup_cons.2 ⟨hfresh, hr.idsNodup⟩
    · intro u hu
      rw [hp]
      rcases List.mem_cons.1 (hperm.subset hu) with h | h
      · rw [h]; exact mapLookup_assign_same _ _ _
      · have hne : u.TaskID ≠ t.TaskID := by
          intro e
          exact hfresh (e ▸ List.mem_map_of_mem _ h)
        rw [mapLookup_assign_other _ _ _ _ hne]
        exact hr.lookupOk u h
    · rw [hdl]; exact hr.deliveredOk
  | pool l _ _ hd hp hrc hdl hperm _ =>
    refine ⟨?_, ?_, ?_⟩
    · exact ((hperm.map Task.TaskID).nodup_iff).2 hr.idsNodup
    · intro u hu
      rw [hp]; exact hr.lookupOk u (hperm.subset hu)
    · rw [hdl]; exact hr.deliveredOk
  | result r hd hd' hp hrc hdl hperm _ =>
    refine ⟨?_, ?_, ?_⟩
    · exact ((hperm.map Task.TaskID).nodup_iff).2 hr.idsNodup
    · intro u hu
      rw [hp]; exact hr.lookupOk u (hperm.subset hu)
    · rw [hdl]; exact hr.deliveredOk
  | deliver r c hd hd' hp hrc hdl hperm _ =>
    have hidx := hi.sendingIdx r (some c) hd
    have hrin : r ∈ inflight s := hperm.symm.subset (List.mem_cons_self _ _)
    have hlk := hr.lookupOk r hrin
    have hres : r.ResChan = some c := by
      rw [hidx, mapIndex, hlk]; rfl
    have hnd : (r.TaskID :: (inflight s').map Task.TaskID).Nodup := by
      have := ((hperm.map Task.TaskID).nodup_iff).1 hr.idsNodup
      simpa using this
    have hnd' := List.nodup_cons.1 hnd
    refine ⟨hnd'.2, ?_, ?_⟩
    · intro u hu
      have hne : u.TaskID ≠ r.TaskID := by
        intro e
        exact hnd'.1 (e ▸ List.mem_map_of_mem _ hu)
      rw [hp, mapLookup_delete_other _ _ _ hne]
      exact hr.lookupOk u (hperm.symm.subset (List.mem_cons_of_mem _ hu))
    · intro e hmem
      rw [hdl, List.mem_append] at hmem
      rcases hmem with h | h
      · exact hr.deliveredOk e h
      · simp at h
        rw [h]; exact hres
  | crash l why _ _ hd hp hrc hdl hin =>
    refine ⟨?_, ?_, ?_⟩
    · rw [hin]; exact hr.idsNodup
    · intro u hu
      rw [hp]
      rw [hin] at hu
      exact hr.lookupOk u hu
    · rw [hdl]; exact hr.deliveredOk

theorem routed_step {W : Type} (Compute : Nat → W → Outcome W) (s : State W) (l : Label)
    (hi : Inv s) (hr : Routed s) (hf : freshSubmit s l = true) :
    Routed (step Compute s l) := by
  rcases step_cases Compute s l with ⟨_, h⟩ | ⟨s', h1, h2⟩
  · rw [h]; exact hr
  · rw [h2]
    exact routed_effect s s' l hi hr hf (step?_effect Compute s s' l h1).2.2

theorem routed_run {W : Type} (Compute : Nat → W → Outcome W) (ls : List Label) (s : State W)
    (hi : Inv s) (hr : Routed s) (hd : distinctInFlight Compute s ls = true) :
    Routed (run Compute s ls) := by
  induction ls generalizing s with
  | nil => exact hr
  | cons l ls ih =>
    simp only [distinctInFlight, Bool.and_eq_true] at hd
    exact ih _ (inv_step Compute s l hi) (routed_step Compute s l hi hr hd.1) hd.2

theorem received_step {W : Type} (Compute : Nat → W → Outcome W) (s : State W) (l : Label) :
    ∃ more, (step Compute s l).received = s.received ++ more := by
  rcases step_cases Compute s l with ⟨_, h⟩ | ⟨s', h1, h2⟩
  · exact ⟨[], by rw [h]; simp⟩
  · rw [h2]
    have he := (step?_effect Compute s s' l h1).2.2
    cases he with
    | submit t _ _ _ hrc _ _ _ => exact ⟨[t], hrc⟩
    | pool l _ _ _ _ hrc _ _ _ => exact ⟨[], by rw [hrc]; simp⟩
    | crash l why _ _ _ _ hrc _ _ => exact ⟨[], by rw [hrc]; simp⟩
    | result r _ _ _ hrc _ _ _ => exact ⟨[], by rw [hrc]; simp⟩
    | deliver r c _ _ _ hrc _ _ _ => exact ⟨[], by rw [hrc]; simp⟩

theorem received_run {W : Type} (Compute : Nat → W → Outcome W) (ls : List Label)
    (s : State W) :
    ∃ more, (run Compute s ls).received = s.received ++ more := by
  induction ls generalizing s with
  | nil => exact ⟨[], by simp [run]⟩
  | cons l ls ih =>
    obtain ⟨m1, h1⟩ := received_step Compute s l
    obtain ⟨m2, h2⟩ := ih (step Compute s l)
    exact ⟨m1 ++ m2, by rw [run_cons, h2, h1, List.append_assoc]⟩

theorem inflight_subset_received {W : Type} (s : State W) (hi : Inv s) :
    ∀ t ∈ inflight s, t ∈ s.received := by
  intro t ht
  exact hi.history.subset (List.mem_append_left _ ht)

/-- Pairwise-distinct TaskIDs among all the items received make every registration fresh. -/
theorem distinct_of_nodup_received {W : Type} (Compute : Nat → W → Outcome W) (ls : List Label)
    (s : State W) (hi : Inv s)
    (hn : ((run Compute s ls).received.map Task.TaskID).Nodup) :
    distinctInFlight Compute s ls = true := by
  induction ls generalizing s with
  | nil => rfl
  | cons l ls ih =>
    simp only [distinctInFlight, Bool.and_eq_true]
    refine ⟨?_, ih _ (inv_step Compute s l hi) hn⟩
    cases l with
    | submit t =>
      by_cases hd : s.disp = DispState.selecting
      · have hs : (step Compute s (Label.submit t)).received = s.received ++ [t] := by
          simp [step, step?, hd]
        obtain ⟨more, hm⟩ := received_run Compute ls (step Compute s (Label.submit t))
        rw [run_cons, hm, hs] at hn
        simp only [List.map_append, List.append_assoc] at hn
        have h1 := (List.nodup_append.1 hn).2.2
        have hnot : t.TaskID ∉ s.received.map Task.TaskID := by
          intro hmem
          exact h1 hmem (by simp)
        simp only [freshSubmit, hd, decide_True, Bool.not_true, Bool.false_or, decide_eq_true_eq]
        intro hmem
        obtain ⟨u, hu, hu'⟩ := List.mem_map.1 hmem
        exact hnot (List.mem_map.2 ⟨u, inflight_subset_received s hi u hu, hu'⟩)
      · simp [freshSubmit, hd]
    | handoff t => rfl
    | workerRecv i => rfl
    | workerCompute i => rfl
    | workerSend i => rfl
    | result => rfl
    | deliver => rfl
    | deadlock => rfl

/-! ## Routing and the table (C1, C3) -/

theorem count_history {W : Type} (s : State W) (hi : Inv s) (t : Task) :
    List.count t (inflight s) + List.count t (deliveredItems s) = List.count t s.received := by
  have := hi.history.count_eq t
  rw [List.count_append] at this
  exact this

/-- C1. Correct routing: in a run in which the items received from the ingress channel
have pairwise-distinct TaskIDs, when the dispatcher is at its select and `t` is the next
item of the results channel, `commPool` has an entry for `t.TaskID`, the entry is
`t.ResChan`, and the result move sends on that very channel; every completed delivery
`(c, r)` put on channel `c` an item `r` that was received with `ResChan = c`. -/
theorem correct_routing {W : Type} (Compute : Nat → W → Outcome W)
    (chanLimit : Nat) (workersNum : Int) (w : W)
    (ls : List Label) (s : State W) (hs : s = run Compute (RunQueue chanLimit workersNum w) ls)
    (hn : (s.received.map Task.TaskID).Nodup) :
    (∀ t rest, s.disp = DispState.selecting → s.workerTaskResults = t :: rest →
        mapLookup s.commPool t.TaskID = some t.ResChan
          ∧ (step Compute s Label.result).disp = DispState.sending t t.ResChan)
      ∧ (∀ r c, s.disp = DispState.sending r c → c = r.ResChan)
      ∧ (∀ c r, (c, r) ∈ s.delivered → r.ResChan = some c ∧ r ∈ s.received) := by
  subst hs
  have hi0 : Inv (RunQueue chanLimit workersNum w) := inv_init chanLimit workersNum w
  have hi := inv_run Compute ls _ hi0
  have hr := routed_run Compute ls _ hi0 (routed_init chanLimit workersNum w)
    (distinct_of_nodup_received Compute ls _ hi0 hn)
  refine ⟨?_, ?_, ?_⟩
  · intro t rest hd hq
    have hin : t ∈ inflight (run Compute (RunQueue chanLimit workersNum w) ls) := by
      simp [inflight, hq]
    have hlk := hr.lookupOk t hin
    refine ⟨hlk, ?_⟩
    simp [step, step?, hd, hq, mapIndex, hlk]
  · intro r c hd
    have hin : r ∈ inflight (run Compute (RunQueue chanLimit workersNum w) ls) := by
      simp [inflight, hd, dispHeld]
    rw [hi.sendingIdx r c hd, mapIndex, hr.lookupOk r hin]
    rfl
  · intro c r hmem
    refine ⟨hr.deliveredOk (c, r) hmem, ?_⟩
    refine hi.history.subset (List.mem_append_right _ ?_)
    exact List.mem_map.2 ⟨(c, r), hmem, rfl⟩

/-- An instance of C1: `itemA` delivered, the result of `itemB` next in the results
channel, one worker. -/
theorem correct_routing_witness :
    (nextResultState.received.map Task.TaskID).Nodup
      ∧ ((∀ t rest, nextResultState.disp = DispState.selecting →
            nextResultState.workerTaskResults = t :: rest →
            mapLookup nextResultState.commPool t.TaskID = some t.ResChan
              ∧ (step demoCompute nextResultState Label.result).disp
                  = DispState.sending t t.ResChan)
        ∧ (∀ r c, nextResultState.disp = DispState.sending r c → c = r.ResChan)
        ∧ (∀ c r, (c, r) ∈ nextResultState.delivered →
            r.ResChan = some c ∧ r ∈ nextResultState.received)) :=
  ⟨by decide,
   correct_routing demoCompute demoLimit 1 0 (serveFirst itemA itemB ++ serveUpToResults itemB)
     nextResultState (by decide) (by decide)⟩

/-- C3. Routing-table invariant: the table starts empty, and along a run in which the
items in flight have pairwise-distinct TaskIDs, `commPool` has the key `k` exactly when
some item of TaskID `k` was received from the ingress channel more often than it was
delivered. -/
theorem routing_table_invariant {W : Type} (Compute : Nat → W → Outcome W)
    (chanLimit : Nat) (workersNum : Int)
    (w : W) (ls : List Label) (s : State W)
    (hs : s = run Compute (RunQueue chanLimit workersNum w) ls)
    (hd : distinctInFlight Compute (RunQueue chanLimit workersNum w) ls = true) (k : Int) :
    (RunQueue chanLimit workersNum w).commPool = []
      ∧ (k ∈ mapKeys s.commPool ↔
          ∃ t : Task, t.TaskID = k
            ∧ List.count t (deliveredItems s) < List.count t s.received) := by
  subst hs
  have hi0 : Inv (RunQueue chanLimit workersNum w) := inv_init chanLimit workersNum w
  have hi := inv_run Compute ls _ hi0
  have hr := routed_run Compute ls _ hi0 (routed_init chanLimit workersNum w) hd
  refine ⟨by unfold RunQueue; split <;> rfl, ?_, ?_⟩
  · intro hk
    obtain ⟨t, ht, h1⟩ := hi.keysIn k hk
    refine ⟨t, h1, ?_⟩
    have := count_history _ hi t
    have hpos : 0 < List.count t (inflight (run Compute (RunQueue chanLimit workersNum w) ls)) :=
      List.count_pos_iff.2 ht
    omega
  · rintro ⟨t, h1, h2⟩
    have := count_history _ hi t
    have hpos : 0 < List.count t (inflight (run Compute (RunQueue chanLimit workersNum w) ls)) := by
      omega
    have ht := List.count_pos_iff.1 hpos
    rw [mem_mapKeys_iff, ← h1]
    exact ⟨_, hr.lookupOk t ht⟩

/-- An instance of C3: `itemA` delivered and `itemB` still in flight, key 8. -/
theorem routing_table_invariant_witness :
    distinctInFlight demoCompute (RunQueue demoLimit 1 0) (serveFirst itemA itemB) = true
      ∧ ((RunQueue demoLimit 1 (0 : Nat)).commPool = []
        ∧ ((8 : Int) ∈ mapKeys servedState.commPool ↔
          ∃ t : Task, t.TaskID = 8
            ∧ List.count t (deliveredItems servedState)
                < List.count t servedState.received)) :=
  ⟨by decide,
   routing_table_invariant demoCompute demoLimit 1 0 (serveFirst itemA itemB) servedState rfl
     (by decide) 8⟩

/-! ## Size of the table (C4) -/

theorem keys_perm_inflight {W : Type} (s : State W) (hi : Inv s) (hr : Routed s) :
    (mapKeys s.commPool).Perm ((inflight s).map Task.TaskID) := by
  refine (List.perm_ext_iff_of_nodup hi.keysNodup hr.idsNodup).2 (fun k => ?_)
  constructor
  · intro hk
    obtain ⟨t, ht, h1⟩ := hi.keysIn k hk
    exact List.mem_map.2 ⟨t, ht, h1⟩
  · intro hk
    obtain ⟨t, ht, h1⟩ := List.mem_map.1 hk
    rw [mem_mapKeys_iff, ← h1]
    exact ⟨_, hr.lookupOk t ht⟩

theorem length_history {W : Type} (s : State W) (hi : Inv s) :
    (inflight s).length + s.delivered.length = s.received.length := by
  have := hi.history.length_eq
  simpa [deliveredItems] using this

/-- C4 as the code has it. Table size: at every reachable state, if along the run the
items in flight had pairwise-distinct TaskIDs, the number of entries of `commPool` plus
the number of deliveries equals the number of items received. With or without that,
registering an item whose TaskID no item in flight has grows the table by exactly one,
a delivery shrinks it by exactly one, and the table is empty when every received item
has been delivered. -/
theorem table_size {W : Type} (Compute : Nat → W → Outcome W)
    (chanLimit : Nat) (workersNum : Int)
    (w : W) (ls : List Label) (s : State W)
    (hs : s = run Compute (RunQueue chanLimit workersNum w) ls) :
    (distinctInFlight Compute (RunQueue chanLimit workersNum w) ls = true →
        s.commPool.length + s.delivered.length = s.received.length)
      ∧ (∀ t : Task, s.disp = DispState.selecting →
          t.TaskID ∉ (inflight s).map Task.TaskID →
          (step Compute s (Label.submit t)).commPool.length = s.commPool.length + 1)
      ∧ (∀ r c, s.disp = DispState.sending r (some c) →
          (step Compute s Label.deliver).commPool.length + 1 = s.commPool.length)
      ∧ (s.delivered.length = s.received.length → s.commPool = []) := by
  subst hs
  have hi0 : Inv (RunQueue chanLimit workersNum w) := inv_init chanLimit workersNum w
  have hi := inv_run Compute ls _ hi0
  have hh := length_history _ hi
  refine ⟨?_, ?_, ?_, ?_⟩
  · intro hd
    have hr := routed_run Compute ls _ hi0 (routed_init chanLimit workersNum w) hd
    have := (keys_perm_inflight _ hi hr).length_eq
    simp only [mapKeys, List.length_map] at this
    omega
  · intro t hdisp hfresh
    have hk : t.TaskID ∉ mapKeys (run Compute (RunQueue chanLimit workersNum w) ls).commPool := by
      intro hk
      obtain ⟨u, hu, h1⟩ := hi.keysIn _ hk
      exact hfresh (List.mem_map.2 ⟨u, hu, h1⟩)
    simp only [step, step?, hdisp, Option.getD_some]
    exact length_mapAssign_fresh _ _ _ hk
  · intro r c hdisp
    have hlk := mapLookup_of_index _ _ _ (hi.sendingIdx r (some c) hdisp)
    have hk : r.TaskID ∈ mapKeys (run Compute (RunQueue chanLimit workersNum w) ls).commPool := by
      rw [mem_mapKeys_iff]
      exact ⟨_, hlk⟩
    simp only [step, step?, hdisp, Option.getD_some]
    exact length_mapDelete_mem _ _ hi.keysNodup hk
  · intro h
    have hin : inflight (run Compute (RunQueue chanLimit workersNum w) ls) = [] :=
      List.length_eq_zero.1 (by omega)
    cases hp : (run Compute (RunQueue chanLimit workersNum w) ls).commPool with
    | nil => rfl
    | cons e m =>
      have hk : e.1 ∈ mapKeys (run Compute (RunQueue chanLimit workersNum w) ls).commPool := by
        rw [hp]; exact List.mem_cons_self _ _
      obtain ⟨u, hu, _⟩ := hi.keysIn _ hk
      rw [hin] at hu
      exact absurd hu (List.not_mem_nil _)

/-- An instance of C4: `itemA` delivered and `itemB` still in flight. -/
theorem table_size_witness :
    distinctInFlight demoCompute (RunQueue demoLimit 1 0) (serveFirst itemA itemB) = true
      ∧ servedState.commPool.length + servedState.delivered.length
          = servedState.received.length
      ∧ (∀ t : Task, servedState.disp = DispState.selecting →
          t.TaskID ∉ (inflight servedState).map Task.TaskID →
          (step demoCompute servedState (Label.submit t)).commPool.length
            = servedState.commPool.length + 1)
      ∧ (∀ r c, servedState.disp = DispState.sending r (some c) →
          (step demoCompute servedState Label.deliver).commPool.length + 1
            = servedState.commPool.length)
      ∧ (servedState.delivered.length = servedState.received.length →
          servedState.commPool = []) :=
  ⟨by decide,
   (table_size demoCompute demoLimit 1 0 (serveFirst itemA itemB) servedState rfl).1 (by decide),
   (table_size demoCompute demoLimit 1 0 (serveFirst itemA itemB) servedState rfl).2⟩

/-- C4 as the spec has it fails. After `itemA` and `itemB7`, of the same TaskID, were
received and nothing was delivered, the table has one entry and not two; the second
registration left the size of the table as it was. -/
theorem table_size_collision :
    (run demoCompute (RunQueue demoLimit 1 0)
          [Label.submit itemA, Label.submit itemB7]).commPool.length
        ≠ (run demoCompute (RunQueue demoLimit 1 0)
              [Label.submit itemA, Label.submit itemB7]).received.length
          - (run demoCompute (RunQueue demoLimit 1 0)
              [Label.submit itemA, Label.submit itemB7]).delivered.length
      ∧ (step demoCompute (run demoCompute (RunQueue demoLimit 1 0) [Label.submit itemA])
            (Label.submit itemB7)).commPool.length
          = (run demoCompute (RunQueue demoLimit 1 0) [Label.submit itemA]).commPool.length := by
  decide

/-! ## Channels of created items -/

theorem resChan_createTasks (reqs : List TaskRequester) (a : Alloc) :
    ∀ t ∈ createTasks reqs a, ∃ n, a.nextChan ≤ n ∧ t.ResChan = some n := by
  induction reqs generalizing a with
  | nil => intro t ht; simp [createTasks] at ht
  | cons r rs ih =>
    intro t ht
    rw [createTasks, List.mem_cons] at ht
    rcases ht with h | h
    · exact ⟨a.nextChan, le_refl _, by rw [h]; rfl⟩
    · obtain ⟨n, hn, h1⟩ := ih _ t h
      have : (CreateTask r a).2.nextChan = a.nextChan + 1 := rfl
      exact ⟨n, by omega, h1⟩

theorem nodup_resChan_createTasks (reqs : List TaskRequester) (a : Alloc) :
    ((createTasks reqs a).map Task.ResChan).Nodup := by
  induction reqs generalizing a with
  | nil => simp [createTasks]
  | cons r rs ih =>
    rw [createTasks, List.map_cons]
    refine List.nodup_cons.2 ⟨?_, ih _⟩
    intro hmem
    obtain ⟨t, ht, h1⟩ := List.mem_map.1 hmem
    obtain ⟨n, hn, h2⟩ := resChan_createTasks rs _ t ht
    have h3 : (CreateTask r a).2.nextChan = a.nextChan + 1 := rfl
    have h4 : (CreateTask r a).1.1.ResChan = some a.nextChan := rfl
    rw [h4, h2] at h1
    injection h1 with h1
    omega

theorem created_inj (reqs : List TaskRequester) (a : Alloc) (t u : Task)
    (ht : t ∈ createTasks reqs a) (hu : u ∈ createTasks reqs a)
    (h : t.ResChan = u.ResChan) : t = u :=
  List.inj_on_of_nodup_map (nodup_resChan_createTasks reqs a) ht hu h

theorem nodup_resChan_of_created (reqs : List TaskRequester) (a : Alloc) (l : List Task)
    (hc : ∀ t ∈ l, t ∈ createTasks reqs a) (hn : l.Nodup) :
    (l.map Task.ResChan).Nodup :=
  List.Nodup.map_on (fun t ht u hu h => created_inj reqs a t u (hc t ht) (hc u hu) h) hn

/-! ## At most one send per response channel (C2) -/

theorem poolVals_delete_sublist (m : CommPool) (k : Int) :
    (poolVals (mapDelete m k)).Sublist (poolVals m) := by
  unfold poolVals mapDelete
  exact (List.filter_sublist m).map _

/-- The channels in the table and the channels already sent on, taken together. -/
theorem chans_effect {W : Type} (s s' : State W) (l : Label) (hi : Inv s)
    (hn : (poolVals s.commPool ++ (deliveredChans s).map some).Nodup)
    (hrc : (s'.received.map Task.ResChan).Nodup) (he : Effect s s' l) :
    (poolVals s'.commPool ++ (deliveredChans s').map some).Nodup := by
  cases he with
  | submit t hd hd' hp hr hdl hperm _ =>
    have hdc : deliveredChans s' = deliveredChans s := by simp [deliveredChans, hdl]
    rw [hp, hdc]
    show (t.ResChan :: (poolVals (mapDelete s.commPool t.TaskID)
      ++ (deliveredChans s).map some)).Nodup
    rw [hr, List.map_append] at hrc
    have hnew : t.ResChan ∉ s.received.map Task.ResChan := by
      intro hmem
      exact (List.nodup_append.1 hrc).2.2 hmem (by simp)
    refine List.nodup_cons.2 ⟨?_, ?_⟩
    · intro hmem
      rcases List.mem_append.1 hmem with h | h
      · have h2 := (poolVals_delete_sublist _ _).subset h
        obtain ⟨e, he, h3⟩ := List.mem_map.1 h2
        obtain ⟨u, hu, _, h4⟩ := hi.poolFrom e he
        exact hnew (List.mem_map.2 ⟨u, hu, by rw [h4, h3]⟩)
      · obtain ⟨c, hc, h3⟩ := List.mem_map.1 h
        obtain ⟨e, he, h5⟩ := List.mem_map.1 hc
        obtain ⟨u, hu, h4⟩ := hi.deliveredFrom e he
        exact hnew (List.mem_map.2 ⟨u, hu, by rw [h4, h5, h3]⟩)
    · exact hn.sublist ((poolVals_delete_sublist _ _).append (List.Sublist.refl _))
  | pool l _ _ hd hp hr hdl hperm _ =>
    have hdc : deliveredChans s' = deliveredChans s := by simp [deliveredChans, hdl]
    rw [hp, hdc]; exact hn
  | crash l why _ _ hd hp hr hdl hin =>
    have hdc : deliveredChans s' = deliveredChans s := by simp [deliveredChans, hdl]
    rw [hp, hdc]; exact hn
  | result r hd hd' hp hr hdl hperm _ =>
    have hdc : deliveredChans s' = deliveredChans s := by simp [deliveredChans, hdl]
    rw [hp, hdc]; exact hn
  | deliver r c hd hd' hp hr hdl hperm _ =>
    have hlk := mapLookup_of_index _ _ _ (hi.sendingIdx r (some c) hd)
    have hmem := mem_of_mapLookup _ _ _ hlk
    have hcin : some c ∈ poolVals s.commPool := List.mem_map.2 ⟨_, hmem, rfl⟩
    have hdc : deliveredChans s' = deliveredChans s ++ [c] := by simp [deliveredChans, hdl]
    rw [hp, hdc, List.map_append, ← List.append_assoc]
    have hn1 := List.nodup_append.1 hn
    have hbase : (poolVals (mapDelete s.commPool r.TaskID)
        ++ (deliveredChans s).map some).Nodup :=
      hn.sublist ((poolVals_delete_sublist _ _).append (List.Sublist.refl _))
    refine List.nodup_append.2 ⟨hbase, by simp, ?_⟩
    intro x hx hx'
    simp at hx'
    subst hx'
    rcases List.mem_append.1 hx with h | h
    · obtain ⟨e, he, h3⟩ := List.mem_map.1 h
      have he' := (mem_mapDelete _ _ _).1 he
      have heq : e = (r.TaskID, some c) :=
        List.inj_on_of_nodup_map hn1.1 he'.1 hmem h3
      exact he'.2 (by rw [heq])
    · exact hn1.2.2 hcin h

theorem chans_run {W : Type} (Compute : Nat → W → Outcome W) (ls : List Label) (s : State W)
    (hi : Inv s) (hn : (poolVals s.commPool ++ (deliveredChans s).map some).Nodup)
    (hrc : ((run Compute s ls).received.map Task.ResChan).Nodup) :
    (poolVals (run Compute s ls).commPool
      ++ (deliveredChans (run Compute s ls)).map some).Nodup := by
  induction ls generalizing s with
  | nil => exact hn
  | cons l ls ih =>
    refine ih _ (inv_step Compute s l hi) ?_ hrc
    rcases step_cases Compute s l with ⟨_, h⟩ | ⟨s', h1, h2⟩
    · rw [h]; exact hn
    · rw [h2]
      refine chans_effect s s' l hi hn ?_ (step?_effect Compute s s' l h1).2.2
      obtain ⟨more, hm⟩ := received_run Compute ls (step Compute s l)
      rw [run_cons, hm, h2, List.map_append] at hrc
      exact (List.nodup_append.1 hrc).1

/-- C2. At-most-once delivery: in a run in which every item received from the ingress
channel was returned by `CreateTask` and no item is received twice, no response channel
occurs twice among the completed sends of the dispatcher, and a send the dispatcher is
blocked in is not on a channel it already sent on. TaskIDs may collide. -/
theorem at_most_once_delivery {W : Type} (Compute : Nat → W → Outcome W)
    (chanLimit : Nat) (workersNum : Int) (w : W)
    (a : Alloc) (reqs : List TaskRequester) (ls : List Label) (s : State W)
    (hs : s = run Compute (RunQueue chanLimit workersNum w) ls)
    (hc : ∀ t ∈ s.received, t ∈ createTasks reqs a) (hn : s.received.Nodup) :
    (deliveredChans s).Nodup
      ∧ ∀ r c, s.disp = DispState.sending r (some c) → c ∉ deliveredChans s := by
  subst hs
  have hi0 : Inv (RunQueue chanLimit workersNum w) := inv_init chanLimit workersNum w
  have hi := inv_run Compute ls _ hi0
  have hch := chans_run Compute ls _ hi0
    (by unfold RunQueue; split <;> simp [poolVals, deliveredChans])
    (nodup_resChan_of_created reqs a _ hc hn)
  have h1 := List.nodup_append.1 hch
  refine ⟨?_, ?_⟩
  · exact List.Nodup.of_map _ h1.2.1
  · intro r c hd hmem
    have hlk := mapLookup_of_index _ _ _ (hi.sendingIdx r (some c) hd)
    have hcin : some c ∈ poolVals (run Compute (RunQueue chanLimit workersNum w) ls).commPool :=
      List.mem_map.2 ⟨_, mem_of_mapLookup _ _ _ hlk, rfl⟩
    exact h1.2.2 hcin (List.mem_map_of_mem _ hmem)

/-- An instance of C2: two created items of the same TaskID, each received once. -/
theorem at_most_once_delivery_witness :
    (∀ t ∈ collidedState.received, t ∈ createTasks [some 10, some 20] collidingAlloc)
      ∧ collidedState.received.Nodup
      ∧ ((deliveredChans collidedState).Nodup
        ∧ ∀ r c, collidedState.disp = DispState.sending r (some c) →
            c ∉ deliveredChans collidedState) :=
  ⟨by decide, by decide,
   at_most_once_delivery demoCompute demoLimit 1 0 collidingAlloc [some 10, some 20]
     (serveFirst itemA itemB7)
     collidedState rfl (by decide) (by decide)⟩

/-! ## The end of the process -/

/-- A process that has ended makes no move. -/
theorem dead_step? {W : Type} (Compute : Nat → W → Outcome W) (s : State W) (l : Label)
    (why : Crash) (h : List Task) (hd : s.disp = DispState.dead why h) :
    step? Compute s l = none := by
  cases l <;> simp [step?, hd, alive]

theorem dead_run {W : Type} (Compute : Nat → W → Outcome W) (ls : List Label) (s : State W)
    (why : Crash) (h : List Task) (hd : s.disp = DispState.dead why h) :
    run Compute s ls = s := by
  induction ls with
  | nil => rfl
  | cons l ls ih =>
    rw [run_cons]
    have : step Compute s l = s := by simp [step, dead_step? Compute s l why h hd]
    rw [this, ih]

/-- How a move can end the process: the runtime's report, at a moment when no goroutine
of the queue can move, or a panic in a worker's call of `Compute()`. -/
theorem step?_dead {W : Type} (Compute : Nat → W → Outcome W) (s s' : State W) (l : Label)
    (why : Crash) (h : List Task) (ha : alive s = true)
    (hs : step? Compute s l = some s') (hd : s'.disp = DispState.dead why h) :
    (why = Crash.deadlock ∧ l = Label.deadlock ∧ stuck Compute s = true)
      ∨ (why = Crash.compute ∧ ∃ i, l = Label.workerCompute i) := by
  have he := (step?_effect Compute s s' l hs).2.2
  cases he with
  | submit t _ hd' _ _ _ _ _ => rw [hd'] at hd; exact absurd hd (by simp)
  | pool l _ _ hd' _ _ _ _ _ =>
    rw [hd'] at hd
    simp [alive, hd] at ha
  | result r _ hd' _ _ _ _ _ => rw [hd'] at hd; exact absurd hd (by simp)
  | deliver r c _ hd' _ _ _ _ _ => rw [hd'] at hd; exact absurd hd (by simp)
  | crash l why' hl _ hd' _ _ _ _ =>
    rcases hl with hl | ⟨i, hl⟩
    · subst hl
      simp only [step?] at hs
      split at hs
      · rename_i hc
        injection hs with hs
        subst hs
        simp at hd
        exact Or.inl ⟨hd.1.symm, rfl, hc.2⟩
      · exact absurd hs (by simp)
    · subst hl
      refine Or.inr ⟨?_, i, rfl⟩
      simp only [step?] at hs
      split at hs
      · split at hs
        · injection hs with hs
          subst hs
          simp at hd
          exact hd.1.symm
        · split at hs
          · injection hs with hs
            subst hs
            simp at hd
            simp [alive, hd] at ha
          · injection hs with hs
            subst hs
            simp at hd
            exact hd.1.symm
          · exact absurd hs (by simp)
      · exact absurd hs (by simp)

/-- The guard of the runtime's report: no goroutine of the queue has an enabled move of
its own. -/
theorem stuck_blocks {W : Type} (Compute : Nat → W → Outcome W) (s : State W)
    (hs : stuck Compute s = true) (l : Label) (hl : isSelfMove l = true) :
    step? Compute s l = none := by
  simp only [stuck, Bool.and_eq_true, Bool.or_eq_true, decide_eq_true_eq,
    List.all_eq_true, List.isEmpty_iff] at hs
  obtain ⟨⟨hp, hw⟩, hd⟩ := hs
  cases l with
  | submit t => simp [isSelfMove] at hl
  | deliver => simp [isSelfMove] at hl
  | deadlock => simp [isSelfMove] at hl
  | handoff t =>
    simp only [step?]
    rw [if_neg]
    rintro ⟨_, hm, hlt⟩
    rcases hp with hp | hp
    · rw [hp] at hm; exact absurd hm (List.not_mem_nil _)
    · omega
  | workerRecv i =>
    simp only [step?]
    split
    · rename_i t q _ hwi hq
      have hmem : WorkerState.idle ∈ s.workers := List.get?_mem hwi
      have := hw _ hmem
      simp [workerAsleep, hq] at this
    · rfl
  | workerCompute i =>
    simp only [step?]
    split
    · rename_i t _ hwi
      have hmem : WorkerState.got t ∈ s.workers := List.get?_mem hwi
      have := hw _ hmem
      simp only [workerAsleep] at this
      split
      · rename_i hdn
        rw [hdn] at this
        simp at this
      · rename_i d hdn
        rw [hdn] at this
        simp only at this
        split
        · rename_i w' hc
          rw [hc] at this
          simp at this
        · rename_i hc
          rw [hc] at this
          simp at this
        · rfl
    · rfl
  | workerSend i =>
    simp only [step?]
    split
    · rename_i t _ hwi
      have hmem : WorkerState.done t ∈ s.workers := List.get?_mem hwi
      have := hw _ hmem
      simp only [workerAsleep, decide_eq_true_eq] at this
      rw [if_neg (by omega)]
    · rfl
  | result =>
    simp only [step?]
    split
    · rename_i r rs hdd hq
      rw [hdd] at hd
      simp [hq] at hd
    · rfl

/-! ## Lookup miss (C5) -/

/-- Once the dispatcher is inside a send on the nil channel it stays there until the
process ends, and the process can end in two ways only. -/
theorem miss_run {W : Type} (Compute : Nat → W → Outcome W) (ls : List Label) (s : State W)
    (r : Task) (hd : s.disp = DispState.sending r none) :
    ((run Compute s ls).disp = DispState.sending r none
        ∨ (run Compute s ls).disp = DispState.dead Crash.deadlock [r]
        ∨ (run Compute s ls).disp = DispState.dead Crash.compute [r])
      ∧ (run Compute s ls).commPool = s.commPool
      ∧ (run Compute s ls).delivered = s.delivered
      ∧ (run Compute s ls).received = s.received
      ∧ ((run Compute s ls).disp = DispState.dead Crash.deadlock [r] →
          ∃ pre post, ls = pre ++ Label.deadlock :: post
            ∧ (run Compute s pre).disp = DispState.sending r none
            ∧ stuck Compute (run Compute s pre) = true)
      ∧ ((run Compute s ls).disp = DispState.dead Crash.compute [r] →
          ∃ pre i post, ls = pre ++ Label.workerCompute i :: post) := by
  induction ls generalizing s with
  | nil =>
    refine ⟨Or.inl hd, rfl, rfl, rfl, ?_, ?_⟩
    · intro h
      rw [show run Compute s [] = s from rfl, hd] at h
      exact absurd h (by simp)
    · intro h
      rw [show run Compute s [] = s from rfl, hd] at h
      exact absurd h (by simp)
  | cons l ls ih =>
    rw [run_cons]
    rcases step_cases Compute s l with ⟨_, h⟩ | ⟨s', h1, h2⟩
    · rw [h]
      obtain ⟨k1, k2, k3, k4, k5, k6⟩ := ih s hd
      refine ⟨k1, k2, k3, k4, ?_, ?_⟩
      · intro hdl
        obtain ⟨pre, post, e1, e2, e3⟩ := k5 hdl
        refine ⟨l :: pre, post, by rw [e1]; rfl, ?_, ?_⟩
        · rw [run_cons, h]; exact e2
        · rw [run_cons, h]; exact e3
      · intro hdl
        obtain ⟨pre, i, post, e1⟩ := k6 hdl
        exact ⟨l :: pre, i, post, by rw [e1]; rfl⟩
    · rw [h2]
      have he := (step?_effect Compute s s' l h1).2.2
      have ha : alive s = true := by simp [alive, hd]
      cases he with
      | submit t hd0 _ _ _ _ _ _ => rw [hd] at hd0; exact absurd hd0 (by simp)
      | result r' hd0 _ _ _ _ _ _ => rw [hd] at hd0; exact absurd hd0 (by simp)
      | deliver r' c hd0 _ _ _ _ _ _ => rw [hd] at hd0; exact absurd hd0 (by simp)
      | pool l _ _ hd' hp hr hdl _ _ =>
        obtain ⟨k1, k2, k3, k4, k5, k6⟩ := ih s' (by rw [hd', hd])
        refine ⟨k1, by rw [k2, hp], by rw [k3, hdl], by rw [k4, hr], ?_, ?_⟩
        · intro hdd
          obtain ⟨pre, post, e1, e2, e3⟩ := k5 hdd
          refine ⟨l :: pre, post, by rw [e1]; rfl, ?_, ?_⟩
          · rw [run_cons, h2]; exact e2
          · rw [run_cons, h2]; exact e3
        · intro hdd
          obtain ⟨pre, i, post, e1⟩ := k6 hdd
          exact ⟨l :: pre, i, post, by rw [e1]; rfl⟩
      | crash l why hl _ hd' hp hr hdl _ =>
        have hd2 : s'.disp = DispState.dead why [r] := by
          rw [hd', hd]; rfl
        rw [dead_run Compute ls s' why [r] hd2]
        rcases step?_dead Compute s s' l why [r] ha h1 hd2 with ⟨e1, e2, e3⟩ | ⟨e1, i, e2⟩
        · subst e1
          refine ⟨Or.inr (Or.inl hd2), hp, hdl, hr, ?_, ?_⟩
          · intro _
            exact ⟨[], ls, by rw [e2]; rfl, hd, e3⟩
          · intro h
            rw [hd2] at h
            exact absurd h (by simp)
        · subst e1
          refine ⟨Or.inr (Or.inr hd2), hp, hdl, hr, ?_, ?_⟩
          · intro h
            rw [hd2] at h
            exact absurd h (by simp)
          · intro _
            exact ⟨[], i, ls, by rw [e2]; rfl⟩

/-- A state in which the dispatcher is inside a send on the nil channel and nothing is
left in the pool changes by the runtime's report only. -/
theorem quiet_fixed {W : Type} (Compute : Nat → W → Outcome W) (s : State W) (r : Task)
    (hd : s.disp = DispState.sending r none) (hp : s.pending = [])
    (hq : s.workerTaskQueue = []) (hw : ∀ w ∈ s.workers, w = WorkerState.idle)
    (ls : List Label) (hl : Label.deadlock ∉ ls) : run Compute s ls = s := by
  induction ls with
  | nil => rfl
  | cons l ls ih =>
    have hstep : step? Compute s l = none := by
      cases l with
      | submit t => simp [step?, hd]
      | handoff t => simp [step?, hp]
      | workerRecv i => simp [step?, hq]
      | workerCompute i =>
        simp only [step?]
        split
        · rename_i t _ hwi
          exact absurd (hw _ (List.get?_mem hwi)) (by simp)
        · rfl
      | workerSend i =>
        simp only [step?]
        split
        · rename_i t _ hwi
          exact absurd (hw _ (List.get?_mem hwi)) (by simp)
        · rfl
      | result => simp [step?, hd]
      | deliver => simp [step?, hd]
      | deadlock => exact absurd (List.mem_cons_self _ _) hl
    rw [run_cons]
    have : step Compute s l = s := by simp [step, hstep]
    rw [this]
    exact ih (fun h => hl (List.mem_cons_of_mem _ h))

/-- C5 as the code has it. Lookup miss: when the dispatcher, at its select, takes from the
results channel an item whose TaskID has no entry in `commPool`, the index expression
gives the nil channel and the dispatcher enters a send on it. Whatever moves follow, the
dispatcher never comes back to the select, sends nothing, deletes nothing and receives
no further item: it stays inside that send unless the process ends. The dispatcher does
not end the process; the process ends only by a panic in a worker's call of `Compute()`
or by the runtime's report that all goroutines are asleep, and that report comes only at
a moment when the dispatcher is inside the send and no worker and no hand-off goroutine
can move. -/
theorem lookup_miss_blocks {W : Type} (Compute : Nat → W → Outcome W) (s : State W)
    (r : Task) (rs : List Task) (ls : List Label) (hd : s.disp = DispState.selecting)
    (hq : s.workerTaskResults = r :: rs) (hm : mapLookup s.commPool r.TaskID = none) :
    step? Compute s Label.result
        = some { s with disp := DispState.sending r none, workerTaskResults := rs }
      ∧ ((run Compute (step Compute s Label.result) ls).disp = DispState.sending r none
        ∨ (run Compute (step Compute s Label.result) ls).disp
            = DispState.dead Crash.deadlock [r]
        ∨ (run Compute (step Compute s Label.result) ls).disp
            = DispState.dead Crash.compute [r])
      ∧ (run Compute (step Compute s Label.result) ls).commPool = s.commPool
      ∧ (run Compute (step Compute s Label.result) ls).delivered = s.delivered
      ∧ (run Compute (step Compute s Label.result) ls).received = s.received
      ∧ ((run Compute (step Compute s Label.result) ls).disp
            = DispState.dead Crash.deadlock [r] →
          ∃ pre post, ls = pre ++ Label.deadlock :: post
            ∧ (run Compute (step Compute s Label.result) pre).disp
                = DispState.sending r none
            ∧ stuck Compute (run Compute (step Compute s Label.result) pre) = true
            ∧ ∀ l, isSelfMove l = true →
                step? Compute (run Compute (step Compute s Label.result) pre) l = none) := by
  have h1 : step? Compute s Label.result
      = some { s with disp := DispState.sending r none, workerTaskResults := rs } := by
    simp [step?, hd, hq, mapIndex, hm]
  have h2 : step Compute s Label.result
      = { s with disp := DispState.sending r none, workerTaskResults := rs } := by
    simp [step, h1]
  refine ⟨h1, ?_⟩
  rw [h2]
  obtain ⟨k1, k2, k3, k4, k5, _⟩ := miss_run Compute ls
    { s with disp := DispState.sending r none, workerTaskResults := rs } r rfl
  refine ⟨k1, k2, k3, k4, ?_⟩
  intro hdd
  obtain ⟨pre, post, e1, e2, e3⟩ := k5 hdd
  exact ⟨pre, post, e1, e2, e3, fun l hl => stuck_blocks Compute _ e3 l hl⟩

/-- An instance of C5: the result of `itemB7` meets the empty table; a receive by a
producer, a new submission and the runtime's report are tried afterwards. -/
theorem lookup_miss_blocks_witness :
    missState.disp = DispState.selecting
      ∧ missState.workerTaskResults = itemB7 :: []
      ∧ mapLookup missState.commPool itemB7.TaskID = none
      ∧ ((run demoCompute (step demoCompute missState Label.result)
            [Label.deliver, Label.submit itemA, Label.deadlock]).disp
              = DispState.sending itemB7 none
        ∨ (run demoCompute (step demoCompute missState Label.result)
            [Label.deliver, Label.submit itemA, Label.deadlock]).disp
              = DispState.dead Crash.deadlock [itemB7]
        ∨ (run demoCompute (step demoCompute missState Label.result)
            [Label.deliver, Label.submit itemA, Label.deadlock]).disp
              = DispState.dead Crash.compute [itemB7])
      ∧ (run demoCompute (step demoCompute missState Label.result)
            [Label.deliver, Label.submit itemA, Label.deadlock]).delivered
          = missState.delivered :=
  ⟨by decide, by decide, by decide,
   (lookup_miss_blocks demoCompute missState itemB7 []
      [Label.deliver, Label.submit itemA, Label.deadlock]
      (by decide) (by decide) (by decide)).2.1,
   (lookup_miss_blocks demoCompute missState itemB7 []
      [Label.deliver, Label.submit itemA, Label.deadlock]
      (by decide) (by decide) (by decide)).2.2.2.1⟩

/-- C5 as the spec has it fails. The result of `itemB7` arrives when `commPool` has no
entry for its TaskID. Processing it is an ordinary move that leaves the dispatcher inside
a send on the nil channel, with the process running; in every continuation in which the
runtime does not report that all goroutines are asleep, nothing changes any more: the
process does not end and the dispatcher does not leave the send. -/
theorem lookup_miss_not_fatal :
    missState.disp = DispState.selecting
      ∧ missState.workerTaskResults = [itemB7]
      ∧ mapLookup missState.commPool itemB7.TaskID = none
      ∧ step demoCompute missState Label.result = blockedState
      ∧ blockedState.disp = DispState.sending itemB7 none
      ∧ alive blockedState = true
      ∧ ∀ ls : List Label, Label.deadlock ∉ ls →
          run demoCompute blockedState ls = blockedState := by
  refine ⟨by decide, by decide, by decide, by decide, by decide, by decide, ?_⟩
  intro ls hl
  exact quiet_fixed demoCompute blockedState itemB7 (by decide) (by decide) (by decide)
    (by decide) ls hl

/-! ## Worker (C7) -/

/-- Whatever the items, the payloads and the room in `res`: a worker takes the items of
`in` in order, sends only items it took, unchanged and in order, is never more than one
send behind, and calls `Compute()` at most once per item taken, on that item's payload
and in order. -/
theorem worker_never_invents {W : Type} (Compute : Nat → W → Outcome W) (id : Int)
    (items : List Task) (room : Nat) (w : W) :
    recvItems (Worker Compute id items room w).events <+: items
      ∧ sentItems (Worker Compute id items room w).events
          <+: recvItems (Worker Compute id items room w).events
      ∧ (recvItems (Worker Compute id items room w).events).length
          ≤ (sentItems (Worker Compute id items room w).events).length + 1
      ∧ (computeCalls (Worker Compute id items room w).events).map some
          <+: (recvItems (Worker Compute id items room w).events).map Task.Data := by
  induction items generalizing room w with
  | nil => simp [Worker, recvItems, sentItems, computeCalls]
  | cons t rest ih =>
    unfold Worker
    cases hd : t.Data with
    | none => simp [recvItems, sentItems, computeCalls, List.prefix_cons_inj]
    | some d =>
      simp only
      cases hc : Compute d w with
      | panics => simp [recvItems, sentItems, computeCalls, hd, List.prefix_cons_inj]
      | hangs => simp [recvItems, sentItems, computeCalls, hd, List.prefix_cons_inj]
      | returns w' =>
        simp only
        cases room with
        | zero => simp [recvItems, sentItems, computeCalls, hd, List.prefix_cons_inj]
        | succ room' =>
          obtain ⟨h1, h2, h3, h4⟩ := ih room' w'
          simp only [recvItems, sentItems, computeCalls, List.map_cons, List.length_cons, hd]
          exact ⟨(List.prefix_cons_inj t).2 h1, (List.prefix_cons_inj t).2 h2,
            by omega, (List.prefix_cons_inj (some d)).2 h4⟩

/-- C7 as the code has it. Worker is a pure relay, as far as the calls return and the
sends are taken: let no item of `in` carry the nil interface value, let every call of
`Compute()` return, and let `res` take a send per item. Then the worker takes every
item, sends exactly those items, unchanged and in the same order, calls `Compute()`
exactly once per item, on that item's payload, right after taking the item and right
before sending it, leaves the store those calls produce, and is back at `range in`.
Neither its `id` nor the `TaskID` or `ResChan` of the items has a part in the calls it
makes or in the store it leaves. -/
theorem worker_pure_relay {W : Type} (Compute : Nat → W → Outcome W) (id : Int)
    (items : List Task) (room : Nat) (w w' : W) (ds : List Nat)
    (hd : items.map Task.Data = ds.map some)
    (hc : storeAfter Compute ds w = some w')
    (hr : items.length ≤ room) :
    (Worker Compute id items room w).stop = WorkerEnd.waiting
      ∧ recvItems (Worker Compute id items room w).events = items
      ∧ sentItems (Worker Compute id items room w).events = items
      ∧ computeCalls (Worker Compute id items room w).events = ds
      ∧ (Worker Compute id items room w).events
          = items.flatMap (fun t =>
              WorkerEvent.recv t :: (t.Data.toList.map WorkerEvent.compute
                ++ [WorkerEvent.send t]))
      ∧ (Worker Compute id items room w).store = w'
      ∧ ∀ (id' : Int) (items' : List Task), items'.map Task.Data = items.map Task.Data →
          computeCalls (Worker Compute id' items' room w).events = ds
            ∧ (Worker Compute id' items' room w).store = w' := by
  have key : ∀ (id : Int) (items : List Task) (room : Nat) (w : W) (ds : List Nat),
      items.map Task.Data = ds.map some → storeAfter Compute ds w = some w' →
      items.length ≤ room →
      (Worker Compute id items room w).stop = WorkerEnd.waiting
        ∧ recvItems (Worker Compute id items room w).events = items
        ∧ sentItems (Worker Compute id items room w).events = items
        ∧ computeCalls (Worker Compute id items room w).events = ds
        ∧ (Worker Compute id items room w).events
            = items.flatMap (fun t =>
                WorkerEvent.recv t :: (t.Data.toList.map WorkerEvent.compute
                  ++ [WorkerEvent.send t]))
        ∧ (Worker Compute id items room w).store = w' := by
    intro id items
    induction items with
    | nil =>
      intro room w ds hd hc _
      cases ds with
      | nil =>
        simp only [storeAfter, Option.some.injEq] at hc
        simp [Worker, recvItems, sentItems, computeCalls, hc]
      | cons d ds => simp at hd
    | cons t rest ih =>
      intro room w ds hd hc hr
      cases ds with
      | nil => simp at hd
      | cons d ds =>
        simp only [List.map_cons, List.cons.injEq] at hd
        obtain ⟨hd1, hd2⟩ := hd
        cases room with
        | zero => simp at hr
        | succ room' =>
          simp only [storeAfter] at hc
          cases hcw : Compute d w with
          | panics => rw [hcw] at hc; simp at hc
          | hangs => rw [hcw] at hc; simp at hc
          | returns w1 =>
            rw [hcw] at hc
            simp only at hc
            obtain ⟨k1, k2, k3, k4, k5, k6⟩ :=
              ih room' w1 ds hd2 hc (by simpa using hr)
            unfold Worker
            simp only [hd1, hcw]
            refine ⟨k1, ?_, ?_, ?_, ?_, k6⟩
            · simp [recvItems, sentItems, k2]
            · simp [sentItems, k3]
            · simp [computeCalls, k4]
            · simp [List.flatMap_cons, hd1, k5]
  obtain ⟨k1, k2, k3, k4, k5, k6⟩ := key id items room w ds hd hc hr
  refine ⟨k1, k2, k3, k4, k5, k6, ?_⟩
  intro id' items' h
  have hlen : items'.length = items.length := by
    have := congrArg List.length h
    simpa using this
  obtain ⟨_, _, _, j4, _, j6⟩ := key id' items' room w ds (by rw [h, hd]) hc (by omega)
  exact ⟨j4, j6⟩

/-- An instance of C7: a worker on `itemA` and `itemB`, with room for two sends. -/
theorem worker_pure_relay_witness :
    [itemA, itemB].map Task.Data = [10, 20].map some
      ∧ storeAfter demoCompute [10, 20] 0 = some 30
      ∧ [itemA, itemB].length ≤ 2
      ∧ sentItems (Worker demoCompute 3 [itemA, itemB] 2 0).events = [itemA, itemB]
      ∧ computeCalls (Worker demoCompute 3 [itemA, itemB] 2 0).events = [10, 20]
      ∧ (Worker demoCompute 3 [itemA, itemB] 2 0).store = 30 :=
  ⟨by decide, by decide, by decide,
   (worker_pure_relay demoCompute 3 [itemA, itemB] 2 0 30 [10, 20]
      (by decide) (by decide) (by decide)).2.2.1,
   (worker_pure_relay demoCompute 3 [itemA, itemB] 2 0 30 [10, 20]
      (by decide) (by decide) (by decide)).2.2.2.1,
   (worker_pure_relay demoCompute 3 [itemA, itemB] 2 0 30 [10, 20]
      (by decide) (by decide) (by decide)).2.2.2.2.2.1⟩

/-- C7 as the spec has it fails. A worker that takes `nilItem`, an item `CreateTask`
makes from the nil interface value, calls no `Compute()` and sends nothing: it ends
with a panic. A worker that takes `itemA` when `res` takes no send calls `Compute()`
once and sends nothing: it stays inside `res <- t`. -/
theorem worker_relay_fails :
    (CreateTask none demoAlloc).1.1 = nilItem
      ∧ recvItems (Worker demoCompute 0 [nilItem] 1 0).events = [nilItem]
      ∧ computeCalls (Worker demoCompute 0 [nilItem] 1 0).events = []
      ∧ sentItems (Worker demoCompute 0 [nilItem] 1 0).events = []
      ∧ (Worker demoCompute 0 [nilItem] 1 0).stop = WorkerEnd.panicked
      ∧ recvItems (Worker demoCompute 0 [itemA] 0 0).events = [itemA]
      ∧ computeCalls (Worker demoCompute 0 [itemA] 0 0).events = [10]
      ∧ sentItems (Worker demoCompute 0 [itemA] 0 0).events = []
      ∧ (Worker demoCompute 0 [itemA] 0 0).stop = WorkerEnd.blocked := by
  decide

/-! ## CreateTask (C8) -/

/-- C8 as the code has it. `CreateTask` is total; the item it returns carries the request
as `Data` and, as `ResChan`, the channel of the returned handle, a channel that is not nil
and that `make` had not returned before; the handle has the bidirectional type
`chan Task`, so it can be received from and also sent on. -/
theorem createTask_result (request : TaskRequester) (a : Alloc) :
    (CreateTask request a).1.1.Data = request
      ∧ (CreateTask request a).1.1.ResChan = (CreateTask request a).1.2.ref
      ∧ (CreateTask request a).1.2.ref = some a.nextChan
      ∧ (CreateTask request a).2.nextChan = a.nextChan + 1
      ∧ (CreateTask request a).1.2.dir = ChanDir.bidir
      ∧ (CreateTask request a).1.2.dir.canRecv = true
      ∧ (CreateTask request a).1.2.dir.canSend = true :=
  ⟨rfl, rfl, rfl, rfl, rfl, rfl, rfl⟩

/-- C8 as the spec has it fails. The handle returned by `CreateTask` is not of the
receive-only type: its direction is that of `chan Task`, which allows a send. -/
theorem createTask_handle_not_recvOnly :
    (CreateTask (some 10) demoAlloc).1.2.dir ≠ ChanDir.recvOnly
      ∧ (CreateTask (some 10) demoAlloc).1.2.dir.canSend = true := by
  decide

/-! ## Misdelivery under collision (C10) -/

/-- C10. Misdelivery under collision: there is a run with two items `A` and `B` made by
`CreateTask`, of the same TaskID, different `Data` and different response channels, `A`
registered before `B`, in which the result of `A` reaches the dispatcher first: the one
delivery of that run puts `A` on the response channel of `B`, the table is empty
afterwards, and when the result of `B` is the next item of the results channel `commPool`
has no entry for its TaskID. -/
theorem misdelivery_under_collision :
    ∃ (a : Alloc) (reqs : List TaskRequester) (A B : Task) (cB : Nat)
        (ls1 ls2 : List Label),
      createTasks reqs a = [A, B]
        ∧ A.TaskID = B.TaskID ∧ A.Data ≠ B.Data ∧ A.ResChan ≠ B.ResChan
        ∧ B.ResChan = some cB
        ∧ (run demoCompute (RunQueue demoLimit 1 0) ls1).received = [A, B]
        ∧ (run demoCompute (RunQueue demoLimit 1 0) ls1).delivered = [(cB, A)]
        ∧ (run demoCompute (RunQueue demoLimit 1 0) ls1).commPool = []
        ∧ (run demoCompute (RunQueue demoLimit 1 0) (ls1 ++ ls2)).disp
            = DispState.selecting
        ∧ (run demoCompute (RunQueue demoLimit 1 0) (ls1 ++ ls2)).workerTaskResults
            = [B]
        ∧ (run demoCompute (RunQueue demoLimit 1 0) (ls1 ++ ls2)).delivered = [(cB, A)]
        ∧ mapLookup (run demoCompute (RunQueue demoLimit 1 0) (ls1 ++ ls2)).commPool
            B.TaskID = none :=
  ⟨collidingAlloc, [some 10, some 20], itemA, itemB7, 1, serveFirst itemA itemB7,
    serveUpToResults itemB7, by decide⟩

/-! ## Identity collision (C6) -/

theorem delivered_step {W : Type} (Compute : Nat → W → Outcome W) (s : State W) (l : Label) :
    ∃ more, (step Compute s l).delivered = s.delivered ++ more := by
  rcases step_cases Compute s l with ⟨_, h⟩ | ⟨s', h1, h2⟩
  · exact ⟨[], by rw [h]; simp⟩
  · rw [h2]
    have he := (step?_effect Compute s s' l h1).2.2
    cases he with
    | submit t _ _ _ _ hdl _ _ => exact ⟨[], by rw [hdl]; simp⟩
    | pool l _ _ _ _ _ hdl _ _ => exact ⟨[], by rw [hdl]; simp⟩
    | result r _ _ _ _ hdl _ _ => exact ⟨[], by rw [hdl]; simp⟩
    | deliver r c _ _ _ _ hdl _ _ => exact ⟨[(c, r)], hdl⟩
    | crash l why _ _ _ _ _ hdl _ => exact ⟨[], by rw [hdl]; simp⟩

theorem delivered_run {W : Type} (Compute : Nat → W → Outcome W) (ls : List Label)
    (s : State W) : ∃ more, (run Compute s ls).delivered = s.delivered ++ more := by
  induction ls generalizing s with
  | nil => exact ⟨[], by simp [run]⟩
  | cons l ls ih =>
    obtain ⟨m1, h1⟩ := delivered_step Compute s l
    obtain ⟨m2, h2⟩ := ih (step Compute s l)
    exact ⟨m1 ++ m2, by rw [run_cons, h2, h1, List.append_assoc]⟩

theorem nochan_effect {W : Type} (s s' : State W) (l : Label) (x : Nat) (hi : Inv s)
    (hp : some x ∉ poolVals s.commPool)
    (hl : ∀ t, l = Label.submit t → t.ResChan ≠ some x) (he : Effect s s' l) :
    some x ∉ poolVals s'.commPool
      ∧ ∃ new, s'.delivered = s.delivered ++ new ∧ ∀ e ∈ new, e.1 ≠ x := by
  cases he with
  | submit t hd hd' hpool hr hdl hperm _ =>
    refine ⟨?_, [], by simp [hdl], by simp⟩
    rw [hpool]
    show some x ∉ t.ResChan :: poolVals (mapDelete s.commPool t.TaskID)
    intro hmem
    rcases List.mem_cons.1 hmem with h | h
    · exact hl t rfl h.symm
    · exact hp ((poolVals_delete_sublist _ _).subset h)
  | pool l _ _ hd hpool hr hdl hperm _ =>
    exact ⟨by rw [hpool]; exact hp, [], by simp [hdl], by simp⟩
  | crash l why _ _ hd hpool hr hdl _ =>
    exact ⟨by rw [hpool]; exact hp, [], by simp [hdl], by simp⟩
  | result r hd hd' hpool hr hdl hperm _ =>
    exact ⟨by rw [hpool]; exact hp, [], by simp [hdl], by simp⟩
  | deliver r c hd hd' hpool hr hdl hperm _ =>
    have hlk := mapLookup_of_index _ _ _ (hi.sendingIdx r (some c) hd)
    have hcin : some c ∈ poolVals s.commPool :=
      List.mem_map.2 ⟨_, mem_of_mapLookup _ _ _ hlk, rfl⟩
    refine ⟨?_, [(c, r)], hdl, ?_⟩
    · rw [hpool]
      exact fun h => hp ((poolVals_delete_sublist _ _).subset h)
    · intro e he
      simp at he
      rw [he]
      intro hcx
      exact hp (hcx ▸ hcin)

theorem nochan_run {W : Type} (Compute : Nat → W → Outcome W) (ls : List Label) (s : State W)
    (x : Nat) (hi : Inv s) (hp : some x ∉ poolVals s.commPool)
    (hl : ∀ t, Label.submit t ∈ ls → t ∈ (run Compute s ls).received →
      t.ResChan ≠ some x) :
    some x ∉ poolVals (run Compute s ls).commPool
      ∧ ∃ new, (run Compute s ls).delivered = s.delivered ++ new ∧ ∀ e ∈ new, e.1 ≠ x := by
  induction ls generalizing s with
  | nil => exact ⟨hp, [], by simp [run], by simp⟩
  | cons l ls ih =>
    have hstep : some x ∉ poolVals (step Compute s l).commPool
        ∧ ∃ new, (step Compute s l).delivered = s.delivered ++ new ∧ ∀ e ∈ new, e.1 ≠ x := by
      rcases step_cases Compute s l with ⟨_, h⟩ | ⟨s', h1, h2⟩
      · rw [h]; exact ⟨hp, [], by simp, by simp⟩
      · have he := (step?_effect Compute s s' l h1).2.2
        rw [h2]
        refine nochan_effect s s' l x hi hp ?_ he
        intro t ht
        refine hl t (by rw [ht]; exact List.mem_cons_self _ _) ?_
        obtain ⟨more, hm⟩ := received_run Compute ls (step Compute s l)
        rw [run_cons, hm, h2]
        refine List.mem_append_left _ ?_
        subst ht
        cases he with
        | submit t _ _ _ hr _ _ _ => rw [hr]; simp
        | pool l hint _ _ _ _ _ _ _ => simp [isInternal] at hint
        | crash l why hl _ _ _ _ _ _ =>
          rcases hl with hl | ⟨i, hl⟩
          · exact absurd hl (by simp)
          · exact absurd hl (by simp)
    obtain ⟨hp1, new1, hd1, hn1⟩ := hstep
    obtain ⟨hp2, new2, hd2, hn2⟩ := ih (step Compute s l) (inv_step Compute s l hi) hp1
      (fun t ht hr => hl t (List.mem_cons_of_mem _ ht) hr)
    refine ⟨hp2, new1 ++ new2, by rw [run_cons, hd2, hd1, List.append_assoc], ?_⟩
    intro e he
    rcases List.mem_append.1 he with h | h
    · exact hn1 e h
    · exact hn2 e h

/-- C6 as the code has it. Identity collision orphans the earlier producer. Let `A` be
an item whose entry is still in `commPool`, let no other item
received in the run carry the response channel of `A`, and let `B` be an item of the
same TaskID and another response channel that the dispatcher takes from the ingress
channel. The registration is an ordinary move: the dispatcher is back at its select, the
table has as many entries as before and the entry of that TaskID is now the channel of
`B`. In every continuation in which `A` is not submitted again, no delivery is made on
the channel of `A` and the dispatcher never enters a send on it. -/
theorem collision_orphans_earlier {W : Type} (Compute : Nat → W → Outcome W)
    (chanLimit : Nat) (workersNum : Int) (w : W) (A B : Task) (pre post : List Label)
    (s1 s2 s3 : State W)
    (hs1 : s1 = run Compute (RunQueue chanLimit workersNum w) pre)
    (hs2 : s2 = step Compute s1 (Label.submit B))
    (hs3 : s3 = run Compute s2 post)
    (hexcl : ∀ t ∈ s3.received, t.ResChan = A.ResChan → t = A)
    (hid : A.TaskID = B.TaskID) (hch : A.ResChan ≠ B.ResChan)
    (hentry : mapLookup s1.commPool A.TaskID = some A.ResChan)
    (hsel : s1.disp = DispState.selecting)
    (hnot : Label.submit A ∉ post) :
    step? Compute s1 (Label.submit B) = some s2
      ∧ s2.disp = DispState.selecting
      ∧ s2.commPool.length = s1.commPool.length
      ∧ mapLookup s2.commPool B.TaskID = some B.ResChan
      ∧ (∃ new, s3.delivered = s2.delivered ++ new ∧ ∀ e ∈ new, some e.1 ≠ A.ResChan)
      ∧ (∀ r x, s3.disp = DispState.sending r (some x) → some x ≠ A.ResChan) := by
  have hi1 : Inv s1 := hs1 ▸ inv_run Compute pre _ (inv_init chanLimit workersNum w)
  have hstep : step? Compute s1 (Label.submit B) = some s2 := by
    rw [hs2]; simp [step, step?, hsel]
  have hpool : s2.commPool = mapAssign s1.commPool B.TaskID B.ResChan := by
    rw [hs2]; simp [step, step?, hsel]
  have hdisp : s2.disp = DispState.selecting := by
    rw [hs2]; simp [step, step?, hsel]
  have hi2 : Inv s2 := hs2 ▸ inv_step Compute s1 _ hi1
  have hi3 : Inv s3 := hs3 ▸ inv_run Compute post _ hi2
  have hsub12 : ∀ t ∈ s1.received, t ∈ s2.received := by
    intro t ht
    obtain ⟨more, hm⟩ := received_step Compute s1 (Label.submit B)
    rw [hs2, hm]; exact List.mem_append_left _ ht
  have hsub23 : ∀ t ∈ s2.received, t ∈ s3.received := by
    intro t ht
    obtain ⟨more, hm⟩ := received_run Compute post s2
    rw [hs3, hm]; exact List.mem_append_left _ ht
  have hkey : B.TaskID ∈ mapKeys s1.commPool := by
    rw [mem_mapKeys_iff, ← hid]; exact ⟨_, hentry⟩
  have hlen : s2.commPool.length = s1.commPool.length := by
    rw [hpool]
    have := length_mapDelete_mem _ _ hi1.keysNodup hkey
    simp only [mapAssign, List.length_cons]
    omega
  have hlk : mapLookup s2.commPool B.TaskID = some B.ResChan := by
    rw [hpool]; exact mapLookup_assign_same _ _ _
  cases hx : A.ResChan with
  | none =>
    obtain ⟨more, hm⟩ := delivered_run Compute post s2
    rw [← hs3] at hm
    exact ⟨hstep, hdisp, hlen, hlk, ⟨more, hm, by simp⟩, by simp⟩
  | some x =>
    have hp2 : some x ∉ poolVals s2.commPool := by
      rw [hpool]
      show some x ∉ B.ResChan :: poolVals (mapDelete s1.commPool B.TaskID)
      intro hmem
      rcases List.mem_cons.1 hmem with h | h
      · exact hch (by rw [hx, h])
      · obtain ⟨e, he, h3⟩ := List.mem_map.1 h
        have he' := (mem_mapDelete _ _ _).1 he
        obtain ⟨u, hu, h4, h5⟩ := hi1.poolFrom e he'.1
        have : u = A := hexcl u (hsub23 u (hsub12 u hu)) (by rw [h5, h3, hx])
        exact he'.2 (by rw [← h4, this, hid])
    have hrun := nochan_run Compute post s2 x hi2 hp2 (by
      intro t ht hr
      rw [← hs3] at hr
      intro h
      have : t = A := hexcl t hr (by rw [h, hx])
      exact hnot (this ▸ ht))
    rw [← hs3] at hrun
    obtain ⟨hp3, new, hd3, hn3⟩ := hrun
    refine ⟨hstep, hdisp, hlen, hlk, ⟨new, hd3, ?_⟩, ?_⟩
    · intro e he h
      injection h with h
      exact hn3 e he h
    · intro r y hd hcA
      injection hcA with hcA
      subst hcA
      have hidx := hi3.sendingIdx r (some y) hd
      have hlk3 := mapLookup_of_index _ _ _ hidx
      exact hp3 (List.mem_map.2 ⟨_, mem_of_mapLookup _ _ _ hlk3, rfl⟩)

/-- An instance of C6: `itemB7` is registered while the entry of `itemA` is in the table,
and both results reach the dispatcher afterwards. -/
theorem collision_orphans_earlier_witness :
    (∀ t ∈ blockedState.received, t.ResChan = itemA.ResChan → t = itemA)
      ∧ itemA.TaskID = itemB7.TaskID ∧ itemA.ResChan ≠ itemB7.ResChan
      ∧ mapLookup (run demoCompute (RunQueue demoLimit 1 0) [Label.submit itemA]).commPool
          itemA.TaskID = some itemA.ResChan
      ∧ (run demoCompute (RunQueue demoLimit 1 0) [Label.submit itemA]).disp
          = DispState.selecting
      ∧ Label.submit itemA ∉
          (serveFirst itemA itemB7).drop 2 ++ serveUpToLookup itemB7
      ∧ (∃ new, blockedState.delivered = [] ++ new ∧ ∀ e ∈ new, some e.1 ≠ itemA.ResChan)
      ∧ (∀ r x, blockedState.disp = DispState.sending r (some x) →
          some x ≠ itemA.ResChan) :=
  ⟨by decide, by decide, by decide, by decide, by decide, by decide,
   (collision_orphans_earlier demoCompute demoLimit 1 0 itemA itemB7
      [Label.submit itemA] ((serveFirst itemA itemB7).drop 2 ++ serveUpToLookup itemB7)
      (run demoCompute (RunQueue demoLimit 1 0) [Label.submit itemA])
      (run demoCompute (RunQueue demoLimit 1 0) [Label.submit itemA, Label.submit itemB7])
      blockedState rfl rfl (by decide) (by decide) (by decide) (by decide) (by decide)
      (by decide) (by decide)).2.2.2.2⟩

/-- C6 as the spec has it fails. `itemB7` is registered while the entry of `itemA` is in
the table; then `itemC`, built by hand around the response channel of `itemA`, is
submitted and served. `itemA` is not submitted again, and yet the dispatcher makes a
delivery on the response channel of `itemA`. -/
theorem collision_orphan_still_served :
    itemA.TaskID = itemB7.TaskID
      ∧ itemA.ResChan ≠ itemB7.ResChan
      ∧ itemA.ResChan = some 0
      ∧ mapLookup (run demoCompute (RunQueue demoLimit 1 0) [Label.submit itemA]).commPool
          itemA.TaskID = some itemA.ResChan
      ∧ step? demoCompute (run demoCompute (RunQueue demoLimit 1 0) [Label.submit itemA])
          (Label.submit itemB7)
          = some (run demoCompute (RunQueue demoLimit 1 0)
              [Label.submit itemA, Label.submit itemB7])
      ∧ Label.submit itemA ∉ hijackSchedule
      ∧ (run demoCompute (run demoCompute (RunQueue demoLimit 1 0)
            [Label.submit itemA, Label.submit itemB7]) hijackSchedule).delivered
          = [(0, itemC)] := by
  decide

/-! ## Eventual delivery (C9) -/

theorem workers_cases (ws : List WorkerState) :
    (∃ i t, ws.get? i = some (WorkerState.got t))
      ∨ (∃ i t, ws.get? i = some (WorkerState.done t))
      ∨ (∀ i, i < ws.length → ws.get? i = some WorkerState.idle) := by
  induction ws with
  | nil => exact Or.inr (Or.inr (by simp))
  | cons x ws ih =>
    cases x with
    | got t => exact Or.inl ⟨0, t, rfl⟩
    | done t => exact Or.inr (Or.inl ⟨0, t, rfl⟩)
    | idle =>
      rcases ih with ⟨i, t, h⟩ | ⟨i, t, h⟩ | h
      · exact Or.inl ⟨i + 1, t, by simpa using h⟩
      · exact Or.inr (Or.inl ⟨i + 1, t, by simpa using h⟩)
      · refine Or.inr (Or.inr ?_)
        intro i hi
        cases i with
        | zero => rfl
        | succ i =>
          have := h i (by simpa using hi)
          simpa using this

theorem heldBy_idle (ws : List WorkerState)
    (h : ∀ i, i < ws.length → ws.get? i = some WorkerState.idle) : heldBy ws = [] := by
  induction ws with
  | nil => rfl
  | cons x ws ih =>
    have h0 := h 0 (by simp)
    simp at h0
    subst h0
    have : heldBy ws = [] := by
      apply ih
      intro i hi
      have := h (i + 1) (by simpa using hi)
      simpa using this
    simp [heldBy, held, this]

theorem workersWeight_zero (ws : List WorkerState) (h : workersWeight ws = 0) :
    heldBy ws = [] := by
  induction ws with
  | nil => rfl
  | cons x ws ih =>
    cases x with
    | idle =>
      simp [workersWeight, workerWeight] at h
      simp [heldBy, held, ih h]
    | got t => simp [workersWeight, workerWeight] at h
    | done t => simp [workersWeight, workerWeight] at h

theorem workersWeight_of_heldBy (ws : List WorkerState) (h : heldBy ws = []) :
    workersWeight ws = 0 := by
  induction ws with
  | nil => rfl
  | cons x ws ih =>
    cases x with
    | idle =>
      simp [heldBy, held] at h
      simp [workersWeight, workerWeight, ih h]
    | got t => simp [heldBy, held] at h
    | done t => simp [heldBy, held] at h

theorem filter_chan_of_nodup (l : List (Nat × Task)) (c : Nat) (t : Task)
    (hn : (l.map Prod.fst).Nodup) (hm : (c, t) ∈ l) :
    l.filter (fun e => decide (e.1 = c)) = [(c, t)] := by
  induction l with
  | nil => simp at hm
  | cons e l ih =>
    rw [List.map_cons] at hn
    obtain ⟨hnot, hn'⟩ := List.nodup_cons.1 hn
    rcases List.mem_cons.1 hm with h | h
    · subst h
      rw [List.filter_cons_of_pos (by simp)]
      have : l.filter (fun e => decide (e.1 = c)) = [] := by
        rw [List.filter_eq_nil_iff]
        intro e he
        simp only [decide_eq_true_eq]
        intro hc
        exact hnot (List.mem_map.2 ⟨e, he, hc⟩)
      rw [this]
    · have hne : e.1 ≠ c := by
        intro hc
        exact hnot (List.mem_map.2 ⟨(c, t), h, hc.symm⟩)
      rw [List.filter_cons_of_neg (by simpa using hne)]
      exact ih hn' h

theorem mem_heldBy_of_get? (ws : List WorkerState) (i : Nat) (x : WorkerState) (t : Task)
    (h : ws.get? i = some x) (ht : t ∈ held x) : t ∈ heldBy ws := by
  induction ws generalizing i with
  | nil => simp at h
  | cons y ws ih =>
    cases i with
    | zero =>
      simp at h
      subst h
      simp [heldBy, ht]
    | succ i =>
      simp at h
      have := ih i (by simpa using h)
      simp [heldBy, this]

/-- While an item is in flight, some move of the queue or of a receiving producer is
enabled and leaves the process running. -/
theorem progress {W : Type} (Compute : Nat → W → Outcome W) (s : State W) (hcap : 1 ≤ s.cap)
    (hw : s.workers.length = s.cap) (ha : alive s = true)
    (hsend : ∀ r c, s.disp = DispState.sending r c → c ≠ none)
    (hdata : ∀ t ∈ inflight s, t.Data ≠ none)
    (hret : ∀ d w, ∃ w', Compute d w = Outcome.returns w')
    (hin : inflight s ≠ []) :
    ∃ l s', isInternal l = true ∧ step? Compute s l = some s' ∧ alive s' = true := by
  cases hd : s.disp with
  | dead why h => simp [alive, hd] at ha
  | sending r c =>
    cases c with
    | none => exact absurd rfl (hsend r none hd)
    | some x =>
      exact ⟨Label.deliver, _, rfl, by simp only [step?, hd]; rfl, by simp [alive]⟩
  | selecting =>
    cases hq : s.workerTaskResults with
    | cons r rs =>
      exact ⟨Label.result, _, rfl, by simp only [step?, hd, hq]; rfl, by simp [alive]⟩
    | nil =>
      rcases workers_cases s.workers with ⟨i, t, h⟩ | ⟨i, t, h⟩ | h
      · have htin : t ∈ inflight s := by
          have := mem_heldBy_of_get? s.workers i _ t h (by simp [held])
          simp [inflight, this]
        have hnn := hdata t htin
        cases hdt : t.Data with
        | none => exact absurd hdt hnn
        | some d =>
          obtain ⟨w', hw'⟩ := hret d s.world
          refine ⟨Label.workerCompute i,
            { s with workers := s.workers.set i (WorkerState.done t), world := w' },
            rfl, ?_, ?_⟩
          · simp only [step?, ha, h, hdt, hw']
          · simp [alive, hd]
      · have hlt : s.workerTaskResults.length < s.cap := by rw [hq]; simpa using hcap
        refine ⟨Label.workerSend i,
          { s with workers := s.workers.set i WorkerState.idle,
                   workerTaskResults := s.workerTaskResults ++ [t] },
          rfl, ?_, ?_⟩
        · simp only [step?, ha, h, hlt, if_true]
        · simp [alive, hd]
      · cases hk : s.workerTaskQueue with
        | cons t q =>
          have h0 := h 0 (by omega)
          refine ⟨Label.workerRecv 0,
            { s with workers := s.workers.set 0 (WorkerState.got t), workerTaskQueue := q },
            rfl, ?_, ?_⟩
          · simp only [step?, ha, h0, hk]
          · simp [alive, hd]
        | nil =>
          cases hp : s.pending with
          | nil =>
            exfalso
            apply hin
            simp [inflight, hp, hk, hq, hd, dispHeld, heldBy_idle _ h]
          | cons t ps =>
            have hlt : s.workerTaskQueue.length < s.cap := by rw [hk]; simpa using hcap
            refine ⟨Label.handoff t,
              { s with pending := s.pending.erase t,
                       workerTaskQueue := s.workerTaskQueue ++ [t] },
              rfl, ?_, ?_⟩
            · have hc : alive s = true ∧ t ∈ s.pending ∧ s.workerTaskQueue.length < s.cap :=
                ⟨ha, by rw [hp]; exact List.mem_cons_self _ _, hlt⟩
              simp only [step?, hc, and_self, if_true]
            · simp [alive, hd]

theorem potential_zero_iff {W : Type} (s : State W) : potential s = 0 ↔ inflight s = [] := by
  constructor
  · intro h
    unfold potential at h
    have h1 : s.pending = [] := List.length_eq_zero.1 (by omega)
    have h2 : s.workerTaskQueue = [] := List.length_eq_zero.1 (by omega)
    have h3 : heldBy s.workers = [] := workersWeight_zero _ (by omega)
    have h4 : s.workerTaskResults = [] := List.length_eq_zero.1 (by omega)
    have h5 : dispHeld s.disp = [] := by
      cases hd : s.disp with
      | sending r c => rw [hd] at h; simp [dispWeight] at h
      | selecting => rfl
      | dead why l =>
        rw [hd] at h
        simp only [dispWeight] at h
        show l = []
        exact List.length_eq_zero.1 (by omega)
    simp [inflight, h1, h2, h3, h4, h5]
  · intro h
    simp only [inflight, List.append_eq_nil] at h
    obtain ⟨⟨⟨⟨h1, h2⟩, h3⟩, h4⟩, h5⟩ := h
    have h6 : dispWeight s.disp = 0 := by
      cases hd : s.disp with
      | sending r c => rw [hd] at h5; simp [dispHeld] at h5
      | selecting => rfl
      | dead why l =>
        rw [hd] at h5
        simp only [dispHeld] at h5
        simp [dispWeight, h5]
    simp [potential, h1, h2, workersWeight_of_heldBy _ h3, h4, h6]

theorem workersWeight_le (ws : List WorkerState) :
    workersWeight ws ≤ 6 * (heldBy ws).length := by
  induction ws with
  | nil => simp [workersWeight, heldBy]
  | cons x ws ih =>
    cases x <;> simp [workersWeight, workerWeight, heldBy, held] <;> omega

/-- At most six moves per item in flight are left. -/
theorem potential_le {W : Type} (s : State W) : potential s ≤ 6 * (inflight s).length := by
  have h1 := workersWeight_le s.workers
  have h2 : dispWeight s.disp ≤ 6 * (dispHeld s.disp).length := by
    cases s.disp <;> simp [dispWeight, dispHeld]
    omega
  simp only [potential, inflight, List.length_append]
  omega

theorem frame_step {W : Type} (Compute : Nat → W → Outcome W) (s : State W) (l : Label) :
    (step Compute s l).cap = s.cap := by
  rcases step_cases Compute s l with ⟨_, h⟩ | ⟨s', h1, h2⟩
  · rw [h]
  · rw [h2]
    exact (step?_effect Compute s s' l h1).1

theorem frame_run {W : Type} (Compute : Nat → W → Outcome W) (ls : List Label) (s : State W) :
    (run Compute s ls).cap = s.cap := by
  induction ls generalizing s with
  | nil => rfl
  | cons l ls ih => rw [run_cons, ih, frame_step]

/-- No process ends in a run without the runtime's report in which every payload is
there and every call of `Compute()` returns. -/
theorem alive_run {W : Type} (Compute : Nat → W → Outcome W) (ls : List Label) (s : State W)
    (hi : Inv s) (ha : alive s = true)
    (hdata : ∀ t ∈ (run Compute s ls).received, t.Data ≠ none)
    (hret : ∀ d w, ∃ w', Compute d w = Outcome.returns w')
    (hdl : Label.deadlock ∉ ls) : alive (run Compute s ls) = true := by
  induction ls generalizing s with
  | nil => exact ha
  | cons l ls ih =>
    rw [run_cons]
    refine ih _ (inv_step Compute s l hi) ?_ hdata (fun h => hdl (List.mem_cons_of_mem _ h))
    rcases step_cases Compute s l with ⟨_, h⟩ | ⟨s', h1, h2⟩
    · rw [h]; exact ha
    · rw [h2]
      cases hd' : s'.disp with
      | selecting => simp [alive, hd']
      | sending r c => simp [alive, hd']
      | dead why h =>
        exfalso
        rcases step?_dead Compute s s' l why h ha h1 hd' with ⟨_, e2, _⟩ | ⟨_, i, e2⟩
        · exact hdl (by rw [e2]; exact List.mem_cons_self _ _)
        · subst e2
          simp only [step?] at h1
          split at h1
          · rename_i t _ hwi
            have htin : t ∈ inflight s := by
              have := mem_heldBy_of_get? s.workers i _ t hwi (by simp [held])
              simp [inflight, this]
            have hrec : t ∈ (run Compute s (Label.workerCompute i :: ls)).received := by
              obtain ⟨more, hm⟩ := received_run Compute (Label.workerCompute i :: ls) s
              rw [hm]
              exact List.mem_append_left _ (inflight_subset_received s hi t htin)
            have hnn := hdata t hrec
            split at h1
            · rename_i hdn
              exact hnn hdn
            · rename_i d hdn
              obtain ⟨w', hw'⟩ := hret d s.world
              rw [hw'] at h1
              simp only [Option.some.injEq] at h1
              subst h1
              simp only at hd'
              simp [alive, hd'] at ha
          · exact absurd h1 (by simp)

/-- The account of a run of enabled moves that leaves the process running: a
registration brings six moves to make, every other move makes one of them. -/
theorem account_run {W : Type} (Compute : Nat → W → Outcome W) (ls : List Label)
    (s : State W) (hen : enabledRun Compute s ls = true)
    (ha : alive (run Compute s ls) = true) :
    ls.length + potential (run Compute s ls) + 7 * s.received.length
      = potential s + 7 * (run Compute s ls).received.length := by
  induction ls generalizing s with
  | nil => simp [run]
  | cons l ls ih =>
    unfold enabledRun at hen
    cases h1 : step? Compute s l with
    | none => rw [h1] at hen; simp at hen
    | some s' =>
      rw [h1] at hen
      simp only at hen
      have h2 : step Compute s l = s' := by simp [step, h1]
      rw [run_cons, h2] at ha ⊢
      have k := ih s' hen ha
      have he := (step?_effect Compute s s' l h1).2.2
      cases he with
      | submit t _ _ _ hr _ _ hpot =>
        rw [hr, List.length_append] at k
        simp only [List.length_cons, List.length_nil] at k ⊢
        omega
      | pool l _ _ _ _ hr _ _ hpot =>
        rw [hr] at k
        simp only [List.length_cons]
        omega
      | result r _ _ _ hr _ _ hpot =>
        rw [hr] at k
        simp only [List.length_cons]
        omega
      | deliver r c _ _ _ hr _ _ hpot =>
        rw [hr] at k
        simp only [List.length_cons]
        omega
      | crash l why _ _ hd' _ _ _ _ =>
        rw [dead_run Compute ls s' why _ hd'] at ha
        simp [alive, hd'] at ha

theorem taskID_createTasks (reqs : List TaskRequester) (a : Alloc) :
    ∀ t ∈ createTasks reqs a, 0 ≤ t.TaskID ∧ t.TaskID < 2 ^ 63 := by
  induction reqs generalizing a with
  | nil => intro t ht; simp [createTasks] at ht
  | cons r rs ih =>
    intro t ht
    rw [createTasks, List.mem_cons] at ht
    rcases ht with h | h
    · subst h
      show 0 ≤ ((a.rand a.draws % 2 ^ 63 : Nat) : Int) ∧ ((a.rand a.draws % 2 ^ 63 : Nat) : Int) < 2 ^ 63
      have : a.rand a.draws % 2 ^ 63 < 2 ^ 63 := Nat.mod_lt _ (by positivity)
      constructor
      · exact Int.natCast_nonneg _
      · exact_mod_cast this
    · exact ih _ t h

/-- There are no more than `2 ^ 63` items of pairwise-distinct TaskIDs made by
`CreateTask`. -/
theorem length_le_of_created (reqs : List TaskRequester) (a : Alloc) (l : List Task)
    (hc : ∀ t ∈ l, t ∈ createTasks reqs a) (hn : (l.map Task.TaskID).Nodup) :
    l.length ≤ 2 ^ 63 := by
  have hn2 : (l.map (fun t => t.TaskID.toNat)).Nodup := by
    have : l.map (fun t => t.TaskID.toNat) = (l.map Task.TaskID).map Int.toNat := by
      simp [List.map_map]
    rw [this]
    refine List.Nodup.map_on ?_ hn
    intro x hx y hy hxy
    obtain ⟨t, ht, rfl⟩ := List.mem_map.1 hx
    obtain ⟨u, hu, rfl⟩ := List.mem_map.1 hy
    have h1 := (taskID_createTasks reqs a t (hc t ht)).1
    have h2 := (taskID_createTasks reqs a u (hc u hu)).1
    omega
  have hsub : (l.map (fun t => t.TaskID.toNat)).toFinset ⊆ Finset.range (2 ^ 63) := by
    intro x hx
    rw [List.mem_toFinset] at hx
    obtain ⟨t, ht, rfl⟩ := List.mem_map.1 hx
    have h1 := taskID_createTasks reqs a t (hc t ht)
    rw [Finset.mem_range]
    omega
  have hcard := Finset.card_le_card hsub
  rw [List.toFinset_card_of_nodup hn2, Finset.card_range, List.length_map] at hcard
  exact hcard

/-- Without the move `deliver` nothing is delivered. -/
theorem no_deliver_run {W : Type} (Compute : Nat → W → Outcome W) (ls : List Label)
    (s : State W) (hl : Label.deliver ∉ ls) : (run Compute s ls).delivered = s.delivered := by
  induction ls generalizing s with
  | nil => rfl
  | cons l ls ih =>
    rw [run_cons, ih _ (fun h => hl (List.mem_cons_of_mem _ h))]
    rcases step_cases Compute s l with ⟨_, h⟩ | ⟨s', h1, h2⟩
    · rw [h]
    · rw [h2]
      have he := (step?_effect Compute s s' l h1).2.2
      cases he with
      | submit t _ _ _ _ hdl _ _ => exact hdl
      | pool l _ _ _ _ _ hdl _ _ => exact hdl
      | result r _ _ _ _ hdl _ _ => exact hdl
      | deliver r c _ _ _ _ _ _ _ => exact absurd (List.mem_cons_self _ _) hl
      | crash l why _ _ _ _ _ hdl _ => exact hdl

/-- C9 as the code has it. Eventual delivery: let the pool size be at least one and a
capacity `make` accepts, let the items received be items made by `CreateTask` with
pairwise-distinct TaskIDs and a payload, let every call of `Compute()` return, and let
the runtime not have ended the process. Then a run of enabled moves has exactly seven
moves per received item less the moves still to make, at most six per undelivered item,
and there are at most `2 ^ 63` received items, so it has at most `7 * 2 ^ 63` moves.
While a move is still to make, a move of a hand-off goroutine, a worker, the dispatcher
or a receiving producer is enabled and keeps the process running. When none is left,
every received item has been delivered on its own response channel, where it is the only
delivery. At any point no channel has two deliveries and a delivered item is a received
item put on its own channel. -/
theorem eventual_delivery {W : Type} (Compute : Nat → W → Outcome W) (chanLimit : Nat)
    (numWorkers : Int) (w : W) (a : Alloc) (reqs : List TaskRequester) (ls : List Label)
    (s : State W)
    (hs : s = run Compute (TaskQueue chanLimit numWorkers w) ls)
    (hw : 1 ≤ numWorkers) (hlim : numWorkers ≤ chanLimit)
    (hc : ∀ t ∈ s.received, t ∈ createTasks reqs a)
    (hn : (s.received.map Task.TaskID).Nodup)
    (hdata : ∀ t ∈ s.received, t.Data ≠ none)
    (hret : ∀ d x, ∃ x', Compute d x = Outcome.returns x')
    (hdl : Label.deadlock ∉ ls)
    (hen : enabledRun Compute (TaskQueue chanLimit numWorkers w) ls = true) :
    ls.length + potential s = 7 * s.received.length
      ∧ s.received.length ≤ 2 ^ 63
      ∧ potential s ≤ 6 * (s.received.length - s.delivered.length)
      ∧ (0 < potential s →
          ∃ l s', isInternal l = true ∧ step? Compute s l = some s' ∧ alive s' = true)
      ∧ (potential s = 0 →
          ∀ t ∈ s.received, ∃ c, t.ResChan = some c
            ∧ s.delivered.filter (fun e => decide (e.1 = c)) = [(c, t)])
      ∧ (deliveredChans s).Nodup
      ∧ (∀ e ∈ s.delivered, e.2.ResChan = some e.1 ∧ e.2 ∈ s.received) := by
  have hcond : ¬ (numWorkers < 0 ∨ (chanLimit : Int) < numWorkers) := by omega
  have hinit : (TaskQueue chanLimit numWorkers w : State W)
      = RunQueue chanLimit numWorkers w := rfl
  have hi0 : Inv (RunQueue chanLimit numWorkers w) := inv_init chanLimit numWorkers w
  have ha0 : alive (RunQueue chanLimit numWorkers w : State W) = true := by
    simp [RunQueue, hcond, alive]
  have hp0 : potential (RunQueue chanLimit numWorkers w : State W) = 0 := by
    rw [potential_zero_iff]
    have := hi0.history
    have h2 : (RunQueue chanLimit numWorkers w : State W).received = [] := by
      simp [RunQueue, hcond]
    rw [h2] at this
    exact (List.append_eq_nil.1 (List.Perm.eq_nil this)).1
  have hr0 : (RunQueue chanLimit numWorkers w : State W).received = [] := by
    simp [RunQueue, hcond]
  have hcap0 : (RunQueue chanLimit numWorkers w : State W).cap = numWorkers.toNat := by
    simp [RunQueue, hcond]
  rw [hinit] at hs hen
  subst hs
  have hi := inv_run Compute ls _ hi0
  have ha := alive_run Compute ls _ hi0 ha0 hdata hret hdl
  have hacc := account_run Compute ls _ hen ha
  rw [hp0, hr0] at hacc
  have hr := routed_run Compute ls _ hi0 (routed_init chanLimit numWorkers w)
    (distinct_of_nodup_received Compute ls _ hi0 hn)
  have hch : (deliveredChans (run Compute (RunQueue chanLimit numWorkers w) ls)).Nodup := by
    have h1 := nodup_resChan_of_created reqs a _ hc (List.Nodup.of_map _ hn)
    have h2 := chans_run Compute ls _ hi0
      (by unfold RunQueue; split <;> simp [poolVals, deliveredChans]) h1
    exact List.Nodup.of_map _ (List.nodup_append.1 h2).2.1
  have hlen := length_history _ hi
  have hple := potential_le (run Compute (RunQueue chanLimit numWorkers w) ls)
  refine ⟨by simp only [List.length_nil] at hacc; omega,
    length_le_of_created reqs a _ hc hn, by omega, ?_, ?_, hch, ?_⟩
  · intro hpos
    have hin : inflight (run Compute (RunQueue chanLimit numWorkers w) ls) ≠ [] := by
      intro h
      have := (potential_zero_iff _).2 h
      omega
    have hcap : 1 ≤ (run Compute (RunQueue chanLimit numWorkers w) ls).cap := by
      rw [frame_run, hcap0]
      omega
    refine progress Compute _ hcap hi.workersLen ha ?_ ?_ hret hin
    · intro r c hd hnone
      have hrin : r ∈ inflight (run Compute (RunQueue chanLimit numWorkers w) ls) := by
        simp [inflight, hd, dispHeld]
      have h1 := hi.sendingIdx r c hd
      rw [mapIndex, hr.lookupOk r hrin] at h1
      obtain ⟨x, _, hx⟩ := resChan_createTasks reqs a r
        (hc r (inflight_subset_received _ hi r hrin))
      rw [hx, hnone] at h1
      simp at h1
    · intro t ht
      exact hdata t (inflight_subset_received _ hi t ht)
  · intro hzero t ht
    have hin := (potential_zero_iff _).1 hzero
    have hperm := hi.history
    rw [hin, List.nil_append] at hperm
    have htd := hperm.symm.subset ht
    obtain ⟨e, he, het⟩ := List.mem_map.1 htd
    have hres := hr.deliveredOk e he
    refine ⟨e.1, by rw [← het]; exact hres, ?_⟩
    have : (e.1, t) ∈ (run Compute (RunQueue chanLimit numWorkers w) ls).delivered := by
      rw [← het]; exact he
    exact filter_chan_of_nodup _ _ _ hch this
  · intro e he
    refine ⟨hr.deliveredOk e he, ?_⟩
    exact hi.history.subset (List.mem_append_right _ (List.mem_map.2 ⟨e, he, rfl⟩))

/-- An instance of C9: two created items of distinct TaskIDs and one worker; the fourteen
moves that register both and serve `itemB` and then `itemA`. -/
theorem eventual_delivery_witness :
    (1 : Int) ≤ 1
      ∧ (1 : Int) ≤ (demoLimit : Int)
      ∧ (∀ t ∈ allServedState.received, t ∈ createTasks [some 10, some 20] demoAlloc)
      ∧ (allServedState.received.map Task.TaskID).Nodup
      ∧ (∀ t ∈ allServedState.received, t.Data ≠ none)
      ∧ (∀ d x, ∃ x', demoCompute d x = Outcome.returns x')
      ∧ Label.deadlock ∉ serveBoth
      ∧ enabledRun demoCompute (TaskQueue demoLimit 1 0) serveBoth = true
      ∧ serveBoth.length + potential allServedState = 7 * allServedState.received.length
      ∧ potential allServedState = 0
      ∧ ∀ t ∈ allServedState.received, ∃ c, t.ResChan = some c
          ∧ allServedState.delivered.filter (fun e => decide (e.1 = c)) = [(c, t)] :=
  ⟨by decide, by decide, by decide, by decide, by decide, fun d x => ⟨x + d, rfl⟩,
   by decide, by decide,
   (eventual_delivery demoCompute demoLimit 1 0 demoAlloc [some 10, some 20] serveBoth
      allServedState rfl (by decide) (by decide) (by decide) (by decide) (by decide)
      (fun d x => ⟨x + d, rfl⟩) (by decide) (by decide)).1,
   by decide,
   (eventual_delivery demoCompute demoLimit 1 0 demoAlloc [some 10, some 20] serveBoth
      allServedState rfl (by decide) (by decide) (by decide) (by decide) (by decide)
      (fun d x => ⟨x + d, rfl⟩) (by decide) (by decide)).2.2.2.2.1 (by decide)⟩

/-- C9 as the spec has it fails, in four ways. With colliding TaskIDs: `itemA` and
`itemB7` are made by `CreateTask` and each submitted once to a pool of one worker; after
`itemA` was served and the result of `itemB7` reached the dispatcher, nothing was
delivered on the response channel of `itemA`, and no continuation makes any further
delivery. With a pool size `make` refuses: the process ends before any item is received.
With a producer that does not receive: the dispatcher stays inside the send of `itemA`,
nothing is delivered, and the runtime may end the process there. With an item that
`CreateTask` did not make and that carries the nil channel: its result is never
delivered. -/
theorem eventual_delivery_fails :
    (createTasks [some 10, some 20] collidingAlloc = [itemA, itemB7]
        ∧ blockedState
            = run demoCompute (TaskQueue demoLimit 1 0)
                (serveFirst itemA itemB7 ++ serveUpToLookup itemB7)
        ∧ blockedState.received = [itemA, itemB7]
        ∧ itemA.ResChan = some 0
        ∧ ∀ ls : List Label, (run demoCompute blockedState ls).delivered = [(1, itemA)])
      ∧ ((1 : Int) ≤ 2 ^ 62
        ∧ (TaskQueue demoLimit (2 ^ 62) (0 : Nat)).disp = DispState.dead Crash.makechan []
        ∧ ∀ ls : List Label,
            (run demoCompute (TaskQueue demoLimit (2 ^ 62) 0) ls).received = [])
      ∧ (waitingState.received = [itemA]
        ∧ waitingState.disp = DispState.sending itemA (some 0)
        ∧ (step? demoCompute waitingState Label.deadlock).isSome = true
        ∧ ∀ ls : List Label, Label.deliver ∉ ls →
            (run demoCompute waitingState ls).delivered = [])
      ∧ (noChanState.received = [noChanItem]
        ∧ noChanState.disp = DispState.sending noChanItem none
        ∧ ∀ ls : List Label, (run demoCompute noChanState ls).delivered = []) := by
  refine ⟨⟨by decide, by decide, by decide, by decide, ?_⟩, ⟨by decide, by decide, ?_⟩,
    ⟨by decide, by decide, by decide, ?_⟩, ⟨by decide, by decide, ?_⟩⟩
  · intro ls
    have h := (miss_run demoCompute ls blockedState itemB7 (by decide)).2.2.1
    rw [h]
    decide
  · intro ls
    rw [dead_run demoCompute ls _ Crash.makechan [] (by decide)]
    decide
  · intro ls hl
    rw [no_deliver_run demoCompute ls waitingState hl]
    decide
  · intro ls
    have h := (miss_run demoCompute ls noChanState noChanItem (by decide)).2.2.1
    rw [h]
    decide

/-! ## The moves of a worker and the function Worker -/

theorem set_idle_self (ws : List WorkerState) (i : Nat) (x y : WorkerState)
    (h : ws.get? i = some WorkerState.idle) :
    ((ws.set i x).set i y).set i WorkerState.idle = ws
      ∧ (ws.set i x).get? i = some x
      ∧ ((ws.set i x).set i y).get? i = some y := by
  induction ws generalizing i with
  | nil => simp at h
  | cons w ws ih =>
    cases i with
    | zero =>
      simp at h
      simp [h]
    | succ i =>
      simp at h
      have := ih i (by simpa using h)
      simp at this
      simp [this]

/-- The three moves of worker `i` on the head of the admission channel do to the system
what one round of the loop of `Worker` does: the store after `Compute`, the item sent. -/
theorem worker_moves_agree {W : Type} (Compute : Nat → W → Outcome W) (s : State W)
    (i : Nat) (t : Task) (q : List Task) (d : Nat) (w' : W) (ha : alive s = true)
    (hw : s.workers.get? i = some WorkerState.idle)
    (hq : s.workerTaskQueue = t :: q) (hr : s.workerTaskResults.length < s.cap)
    (hdt : t.Data = some d) (hcw : Compute d s.world = Outcome.returns w') :
    run Compute s [Label.workerRecv i, Label.workerCompute i, Label.workerSend i]
      = { s with
          workerTaskQueue := q
          workerTaskResults :=
            s.workerTaskResults ++ sentItems (Worker Compute (i : Int) [t] 1 s.world).events
          world := (Worker Compute (i : Int) [t] 1 s.world).store } := by
  obtain ⟨h1, h2, h3⟩ := set_idle_self s.workers i (WorkerState.got t) (WorkerState.done t) hw
  have e1 : step Compute s (Label.workerRecv i)
      = { s with
          workers := s.workers.set i (WorkerState.got t)
          workerTaskQueue := q } := by
    simp only [step, step?, ha, hw, hq, Option.getD_some]
  have e2 : step Compute
        { s with
          workers := s.workers.set i (WorkerState.got t)
          workerTaskQueue := q } (Label.workerCompute i)
      = { s with
          workers := (s.workers.set i (WorkerState.got t)).set i (WorkerState.done t)
          workerTaskQueue := q
          world := w' } := by
    have ha2 : alive { s with
          workers := s.workers.set i (WorkerState.got t)
          workerTaskQueue := q } = true := ha
    simp only [step, step?, ha2, h2, hdt, hcw, Option.getD_some]
  have e3 : step Compute
        { s with
          workers := (s.workers.set i (WorkerState.got t)).set i (WorkerState.done t)
          workerTaskQueue := q
          world := w' } (Label.workerSend i)
      = { s with
          workers := s.workers
          workerTaskQueue := q
          workerTaskResults := s.workerTaskResults ++ [t]
          world := w' } := by
    have ha3 : alive { s with
          workers := (s.workers.set i (WorkerState.got t)).set i (WorkerState.done t)
          workerTaskQueue := q
          world := w' } = true := ha
    simp only [step, step?, ha3, h3, hr, if_true, Option.getD_some, h1]
  show step Compute (step Compute (step Compute s _) _) _ = _
  rw [e1, e2, e3]
  simp [Worker, hdt, hcw, sentItems]

end TQ
